import Mathlib

/-!
# Verification of the Bursa Barosu knowledge-graph core

A shallow embedding, in Lean 4, of the text-normalization, pattern-based
entity extraction and Neo4j graph-upsert code of the
`bursa_baro_kg` package, together with proofs and refutations of the
specification's claims about it.

Python strings are modelled as `List Char` (one element per Unicode code
point, exactly as Python indexes strings).  Machine behaviour that the
code relies on (Python `str.lower`, `str.strip`, `re` pattern matching,
`unicodedata` normalization for the character repertoire that actually
occurs in this corpus) is embedded explicitly below.
-/

namespace BursaKG

/-! ## Python string primitives -/

/-- Python whitespace (`str.split`, `str.strip`, and the regex class
the code writes as a backslash-s): the six ASCII whitespace characters.
(The corpus contains no further Unicode space characters.) -/
def pySpace (c : Char) : Bool :=
  c = ' ' || c = '\t' || c = '\n' || c = '\x0d' || c = '\x0b' || c = '\x0c'

/-- Python word characters (the regex class written backslash-w) restricted
to the repertoire occurring in this development: ASCII alphanumerics,
underscore and the Turkish letters. -/
def pyWord (c : Char) : Bool :=
  ('a' ≤ c && c ≤ 'z') || ('A' ≤ c && c ≤ 'Z') || ('0' ≤ c && c ≤ '9') || c = '_' ||
  c = 'ç' || c = 'ğ' || c = 'ı' || c = 'ö' || c = 'ş' || c = 'ü' ||
  c = 'Ç' || c = 'Ğ' || c = 'İ' || c = 'Ö' || c = 'Ş' || c = 'Ü'

/-- U+0307 combining dot above. -/
def combDot : Char := Char.ofNat 0x307
/-- U+0327 combining cedilla. -/
def combCedilla : Char := Char.ofNat 0x327
/-- U+0306 combining breve. -/
def combBreve : Char := Char.ofNat 0x306
/-- U+0308 combining diaeresis. -/
def combDiaeresis : Char := Char.ofNat 0x308

/-- Python `str.lower` on one character.  `'İ'` (U+0130) lowercases to the
two-character sequence `i` followed by the combining dot above (U+0307);
every other character of the repertoire lowercases one-to-one. -/
def pyLowerChar (c : Char) : List Char :=
  if c = 'İ' then ['i', combDot]
  else if 'A' ≤ c && c ≤ 'Z' then [Char.ofNat (c.toNat + 32)]
  else if c = 'Ç' then ['ç'] else if c = 'Ğ' then ['ğ']
  else if c = 'Ö' then ['ö'] else if c = 'Ş' then ['ş']
  else if c = 'Ü' then ['ü'] else [c]

/-- Python `str.lower` on a string. -/
def pyLower (s : List Char) : List Char := s.flatMap pyLowerChar

/-- Python `str.strip` (strip leading and trailing whitespace). -/
def pyStrip (s : List Char) : List Char :=
  ((s.dropWhile pySpace).reverse.dropWhile pySpace).reverse

/-- Accumulator form of whitespace splitting (`cur` holds the current
word reversed). -/
def pySplitWsAux : List Char → List Char → List (List Char)
  | cur, [] => if cur = [] then [] else [cur.reverse]
  | cur, c :: t =>
    if pySpace c then
      if cur = [] then pySplitWsAux [] t else cur.reverse :: pySplitWsAux [] t
    else pySplitWsAux (c :: cur) t

/-- Python `str.split()` with no argument: split on whitespace runs,
dropping empty fields. -/
def pySplitWs (s : List Char) : List (List Char) := pySplitWsAux [] s

/-- Python substring membership (`needle in haystack`). -/
def pySub (needle haystack : List Char) : Bool :=
  match haystack with
  | [] => needle = []
  | _ :: t => needle.isPrefixOf haystack || pySub needle t

/-- Accumulator form of whitespace collapsing: `inWs` records whether the
previous character was whitespace already replaced by a space. -/
def collapseWsAux : Bool → List Char → List Char
  | _, [] => []
  | inWs, c :: t =>
    if pySpace c then
      if inWs then collapseWsAux true t else ' ' :: collapseWsAux true t
    else c :: collapseWsAux false t

/-- Replace every maximal whitespace run by a single space: the effect of
`re.sub` with pattern "one-or-more whitespace" and replacement `" "`. -/
def collapseWs (s : List Char) : List Char := collapseWsAux false s

/-! ## `nlp/normalizer.py` -/

/-- `unicodedata.normalize("NFKC", text)`.  Every character of the
repertoire used in this development (ASCII, precomposed Turkish letters,
the combining dot above) is NFKC-stable — none has a compatibility
decomposition and no new compositions arise — so on these texts the
normalization is the identity. -/
def nfkc (s : List Char) : List Char := s

/-- `unicodedata.normalize("NFKD", text)` on one character: canonical
decomposition of the precomposed Latin letters occurring here; all other
characters (including U+0131 dotless i, which has no decomposition) are
left alone. -/
def nfkdChar (c : Char) : List Char :=
  if c = 'ç' then ['c', combCedilla] else if c = 'Ç' then ['C', combCedilla]
  else if c = 'ğ' then ['g', combBreve] else if c = 'Ğ' then ['G', combBreve]
  else if c = 'ö' then ['o', combDiaeresis] else if c = 'Ö' then ['O', combDiaeresis]
  else if c = 'ş' then ['s', combCedilla] else if c = 'Ş' then ['S', combCedilla]
  else if c = 'ü' then ['u', combDiaeresis] else if c = 'Ü' then ['U', combDiaeresis]
  else [c]

/-- `unicodedata.normalize("NFKD", text)` on a string. -/
def nfkd (s : List Char) : List Char := s.flatMap nfkdChar

/-- `unicodedata.combining(ch) != 0`: the combining marks reachable in
this development lie in the combining-diacritics block U+0300–U+036F. -/
def isCombining (c : Char) : Bool :=
  0x300 ≤ c.toNat && c.toNat ≤ 0x36F

/-- The fixed substitution table `_TR_ASCII_MAP` of `normalizer.py`
(folds Turkish letters to their base-Latin neighbours). -/
def trAsciiMap (c : Char) : Char :=
  if c = 'ç' || c = 'Ç' then 'c'
  else if c = 'ğ' || c = 'Ğ' then 'g'
  else if c = 'ı' || c = 'I' || c = 'İ' then 'i'
  else if c = 'ö' || c = 'Ö' then 'o'
  else if c = 'ş' || c = 'Ş' then 's'
  else if c = 'ü' || c = 'Ü' then 'u'
  else c

/-- Characters kept by the `re.sub` strip step of `make_key`: lowercase
ASCII letters, digits, whitespace, period, underscore, hyphen. -/
def keyChar (c : Char) : Bool :=
  ('a' ≤ c && c ≤ 'z') || ('0' ≤ c && c ≤ '9') || pySpace c ||
  c = '.' || c = '_' || c = '-'

/-- `normalize_text` of `nlp/normalizer.py`: NFKC, collapse whitespace
runs to single spaces, strip the ends. -/
def normalize_text (text : List Char) : List Char :=
  if text = [] then []
  else pyStrip (collapseWs (nfkc text))

/-- `make_key` of `nlp/normalizer.py` with explicit `ascii_fold` flag:
display-normalize, lowercase, optionally fold Turkish letters to ASCII
(substitution table, then NFKD decomposition and removal of combining
marks), strip every character outside the key alphabet, and collapse
whitespace again. -/
def make_key_fold (text : List Char) (ascii_fold : Bool) : List Char :=
  if text = [] then []
  else
    let t := pyLower (normalize_text text)
    let t := if ascii_fold then
        (nfkd (t.map trAsciiMap)).filter (fun c => !isCombining c)
      else t
    let t := t.filter keyChar
    pyStrip (collapseWs t)

/-- `make_key` with its default `ascii_fold=True`. -/
def make_key (text : List Char) : List Char := make_key_fold text true

/-! ## A Python-`re` matcher for the patterns of `nlp/processor.py`

The pattern-based extraction backend of `NLPProcessor` compiles a fixed
set of regular expressions.  The abstract syntax below covers exactly the
constructs those patterns use; the matcher reproduces Python's leftmost
scan with backtracking preference (alternation tries the left branch
first, quantifiers are greedy), word boundaries, and the
`re.IGNORECASE` flag.  Recursion is bounded by an explicit fuel that is
always chosen large enough for the pattern and subject at hand. -/

/-- Regular-expression abstract syntax. `cls` carries literal character
ranges plus the pattern's IGNORECASE flag. -/
inductive RE where
  | eps : RE
  | cls : List (Char × Char) → Bool → RE
  | wordC : RE
  | spaceC : RE
  | digitC : RE
  | wb : RE
  | cat : RE → RE → RE
  | alt : RE → RE → RE
  | opt : RE → RE
  | star : RE → RE
deriving Repr

/-- The characters Python's IGNORECASE treats as equal to `c`, for this
repertoire: ASCII case pairs, Turkish case pairs, and the four-way
equivalence class {i, I, ı, İ} used by CPython's case fixups. -/
def caseVariants (c : Char) : List Char :=
  if c = 'i' || c = 'I' || c = 'ı' || c = 'İ' then ['i', 'I', 'ı', 'İ']
  else if 'a' ≤ c && c ≤ 'z' then [c, Char.ofNat (c.toNat - 32)]
  else if 'A' ≤ c && c ≤ 'Z' then [Char.ofNat (c.toNat + 32), c]
  else if c = 'ç' || c = 'Ç' then ['ç', 'Ç']
  else if c = 'ğ' || c = 'Ğ' then ['ğ', 'Ğ']
  else if c = 'ö' || c = 'Ö' then ['ö', 'Ö']
  else if c = 'ş' || c = 'Ş' then ['ş', 'Ş']
  else if c = 'ü' || c = 'Ü' then ['ü', 'Ü']
  else [c]

/-- Membership of a character in a list of inclusive ranges. -/
def inRanges (rs : List (Char × Char)) (c : Char) : Bool :=
  rs.any fun p => p.1 ≤ c && c ≤ p.2

/-- Character-class matching, honouring IGNORECASE. -/
def clsMatch (rs : List (Char × Char)) (ic : Bool) (c : Char) : Bool :=
  inRanges rs c || (ic && (caseVariants c).any (inRanges rs))

/-- Word-character test on an optional character (string edge = no). -/
def wordOpt : Option Char → Bool
  | none => false
  | some c => pyWord c

/-- The backtracking matcher, continuation-passing style.  `p` is the
character just before the current position (for word boundaries), `k`
receives the position after the sub-match and yields the final suffix on
overall success.  The first success in Python's preference order wins.
Fuel bounds the call depth and is chosen to be ample by the callers. -/
def reM : Nat → RE → Option Char → List Char →
    (Option Char → List Char → Option (List Char)) → Option (List Char)
  | 0, _, _, _, _ => none
  | _ + 1, .eps, p, s, k => k p s
  | _ + 1, .wb, p, s, k =>
    if wordOpt p ≠ wordOpt s.head? then k p s else none
  | _ + 1, .cls rs ic, _, s, k =>
    match s with
    | [] => none
    | c :: t => if clsMatch rs ic c then k (some c) t else none
  | _ + 1, .wordC, _, s, k =>
    match s with
    | [] => none
    | c :: t => if pyWord c then k (some c) t else none
  | _ + 1, .spaceC, _, s, k =>
    match s with
    | [] => none
    | c :: t => if pySpace c then k (some c) t else none
  | _ + 1, .digitC, _, s, k =>
    match s with
    | [] => none
    | c :: t => if '0' ≤ c && c ≤ '9' then k (some c) t else none
  | f + 1, .cat r1 r2, p, s, k =>
    reM f r1 p s (fun p' s' => reM f r2 p' s' k)
  | f + 1, .alt r1 r2, p, s, k =>
    (reM f r1 p s k) <|> (reM f r2 p s k)
  | f + 1, .opt r, p, s, k => (reM f r p s k) <|> k p s
  | f + 1, .star r, p, s, k =>
    (reM f r p s (fun p' s' =>
      if s'.length < s.length then reM f (.star r) p' s' k else none))
      <|> k p s

/-- Node count of a pattern, used to size the fuel. -/
def reSize : RE → Nat
  | .cat r1 r2 => reSize r1 + reSize r2 + 1
  | .alt r1 r2 => reSize r1 + reSize r2 + 1
  | .opt r => reSize r + 1
  | .star r => reSize r + 1
  | _ => 1

/-- Ample fuel for matching `r` against `s`. -/
def fuelFor (r : RE) (s : List Char) : Nat :=
  (reSize r + 2) * (s.length + 2)

/-- Leftmost match attempt at the current position: the unmatched suffix
of the first match in preference order, if any. -/
def firstMatchRest (r : RE) (p : Option Char) (s : List Char) :
    Option (List Char) :=
  reM (fuelFor r s) r p s (fun _ s' => some s')

/-- Length of the match attempt at the current position. -/
def firstMatchLen (r : RE) (p : Option Char) (s : List Char) : Option Nat :=
  (firstMatchRest r p s).map (fun rest => s.length - rest.length)

/-- `pattern.finditer(sentence)`: scan left to right, reporting
non-overlapping matches as (start position, matched text) and resuming
after each match (for an empty match, at the next position). -/
def finditerAux : Nat → RE → Option Char → List Char → Nat →
    List (Nat × List Char)
  | 0, _, _, _, _ => []
  | f + 1, r, p, s, pos =>
    match firstMatchLen r p s with
    | some 0 =>
      (pos, []) :: (match s with
        | [] => []
        | c :: t => finditerAux f r (some c) t (pos + 1))
    | some (n + 1) =>
      let txt := s.take (n + 1)
      (pos, txt) ::
        finditerAux f r (some (txt.getLastD ' ')) (s.drop (n + 1)) (pos + n + 1)
    | none =>
      match s with
      | [] => []
      | c :: t => finditerAux f r (some c) t (pos + 1)

/-- All matches of `r` in `s`, Python `finditer` semantics. -/
def finditer (r : RE) (s : List Char) : List (Nat × List Char) :=
  finditerAux (s.length + 1) r none s 0

/-- `pattern.search(word)` viewed as a Boolean: does `r` match anywhere
in `s`? -/
def reSearchAux : Nat → RE → Option Char → List Char → Bool
  | 0, _, _, _ => false
  | f + 1, r, p, s =>
    (firstMatchLen r p s).isSome ||
      (match s with
       | [] => false
       | c :: t => reSearchAux f r (some c) t)

/-- Top-level search from the start of the string. -/
def reSearch (r : RE) (s : List Char) : Bool :=
  reSearchAux (s.length + 1) r none s

/-! ### Pattern construction helpers -/

/-- A single literal character, with the pattern's IGNORECASE flag. -/
def rch (ic : Bool) (c : Char) : RE := .cls [(c, c)] ic

/-- A literal string. -/
def rlit (ic : Bool) (s : String) : RE :=
  (s.toList.map (rch ic)).foldr .cat .eps

/-- Concatenation of a list of patterns. -/
def rcat (l : List RE) : RE := l.foldr .cat .eps

/-- Alternation of a non-empty list, left preference first. -/
def ralts : List RE → RE
  | [] => .eps
  | [r] => r
  | r :: t => .alt r (ralts t)

/-- One-or-more (greedy). -/
def rplus (r : RE) : RE := .cat r (.star r)

/-- Two-or-more (greedy), the `{2,}` quantifier. -/
def rep2p (r : RE) : RE := .cat r (.cat r (.star r))

/-- Exactly `n` copies. -/
def repN : Nat → RE → RE
  | 0, _ => .eps
  | n + 1, r => .cat r (repN n r)

/-- One or two copies, the `{1,2}` quantifier. -/
def rep1to2 (r : RE) : RE := .cat r (.opt r)

/-- The uppercase class `[A-ZÇĞIÖŞÜ]` exactly as written in the source. -/
def ucTR : List (Char × Char) :=
  [('A', 'Z'), ('Ç', 'Ç'), ('Ğ', 'Ğ'), ('I', 'I'), ('Ö', 'Ö'), ('Ş', 'Ş'),
   ('Ü', 'Ü')]

/-- The lowercase class `[a-zçğıöşü]` exactly as written in the source. -/
def lcTR : List (Char × Char) :=
  [('a', 'z'), ('ç', 'ç'), ('ğ', 'ğ'), ('ı', 'ı'), ('ö', 'ö'), ('ş', 'ş'),
   ('ü', 'ü')]

/-! ### The patterns of `NLPProcessor._init_regex_patterns`, transcribed -/

/-- An uppercase-initial word: `[A-ZÇĞIÖŞÜ][a-zçğıöşü]+`. -/
def nameWord : RE := rcat [.cls ucTR false, rplus (.cls lcTR false)]

/-- An uppercase-initial word of ≥ 3 letters: `[A-ZÇĞIÖŞÜ][a-zçğıöşü]{2,}`. -/
def nameWord2 : RE := rcat [.cls ucTR false, rep2p (.cls lcTR false)]

/-- First person pattern: honorific titles followed by a capitalized
name sequence. -/
def personPat1 : RE :=
  rcat [.wb,
    ralts [rcat [rlit false "Prof", .opt (rch false '.'), .star .spaceC,
                 rlit false "Dr", .opt (rch false '.')],
           rcat [rlit false "Dr", .opt (rch false '.')],
           rcat [rlit false "Doç", .opt (rch false '.'), .star .spaceC,
                 rlit false "Dr", .opt (rch false '.')],
           rcat [rlit false "Av", .opt (rch false '.')]],
    rplus .spaceC, nameWord, rplus .spaceC, nameWord,
    .star (rcat [rplus .spaceC, nameWord]), .wb]

/-- Second person pattern: role titles followed by a name sequence. -/
def personPat2 : RE :=
  rcat [.wb,
    ralts [rlit false "Başkan", rlit false "Müdür", rlit false "Dekan",
           rlit false "Rektör",
           rcat [rlit false "Genel", rplus .spaceC, rlit false "Müdür"]],
    rplus .spaceC, nameWord, rplus .spaceC, nameWord,
    .star (rcat [rplus .spaceC, nameWord]), .wb]

/-- Third person pattern: two to three capitalized words of ≥ 3 letters. -/
def personPat3 : RE :=
  rcat [.wb, nameWord2, rplus .spaceC, nameWord2,
    .opt (rcat [rplus .spaceC, nameWord2]), .wb]

def person_patterns : List RE := [personPat1, personPat2, personPat3]

/-- Organization patterns, in source order, all IGNORECASE. -/
def orgPat1 : RE :=
  rcat [.wb, .opt (rcat [rlit true "Bursa", rplus .spaceC]), rlit true "Baro",
    .opt (ralts [rlit true "su",
                 rcat [rlit true "lar", rplus .spaceC, rlit true "Birliği"]]),
    .wb]

def orgPat2 : RE :=
  rcat [.wb, rlit true "Türkiye", rplus .spaceC, rlit true "Barolar",
    rplus .spaceC, rlit true "Birliği", .wb]

def orgPat3 : RE :=
  rcat [.wb, rplus .wordC, rplus .spaceC,
    ralts [rlit true "Mahkeme", rlit true "Mahkemesi",
           rcat [rlit true "Sulh", rplus .spaceC, rlit true "Hukuk",
                 rplus .spaceC, rlit true "Mahkemesi"],
           rcat [rlit true "Asliye", rplus .spaceC, rlit true "Hukuk",
                 rplus .spaceC, rlit true "Mahkemesi"]],
    .wb]

def orgPat4 : RE :=
  rcat [.wb,
    ralts [rlit true "Yargıtay", rlit true "Danıştay",
           rcat [rlit true "Anayasa", rplus .spaceC, rlit true "Mahkemesi"]],
    .wb]

def orgPat5 : RE :=
  rcat [.wb, rplus .wordC, rplus .spaceC, rlit true "Üniversitesi",
    .opt (rcat [rplus .spaceC, rplus .wordC, rplus .spaceC,
                rlit true "Fakültesi"]),
    .wb]

def orgPat6 : RE :=
  rcat [.wb,
    ralts [rlit true "Adalet", rlit true "İçişleri", rlit true "Dışişleri",
           rlit true "Maliye"],
    rplus .spaceC, rlit true "Bakanlığı", .wb]

def orgPat7 : RE :=
  rcat [.wb, rplus .wordC, rplus .spaceC,
    ralts [rlit true "Bakanlığı", rlit true "Müdürlüğü", rlit true "Başkanlığı"],
    .wb]

def orgPat8 : RE :=
  rcat [.wb, rplus .wordC, .star (rcat [rplus .spaceC, rplus .wordC]),
    rplus .spaceC,
    ralts [rlit true "Derneği", rlit true "Vakfı", rlit true "Federasyonu",
           rlit true "Birliği"],
    .wb]

def orgPat9 : RE :=
  rcat [.wb, rplus .wordC, .star (rcat [rplus .spaceC, rplus .wordC]),
    rplus .spaceC,
    ralts [rcat [rlit true "A", rch true '.', rlit true "Ş", rch true '.'],
           rcat [rlit true "Ltd", .opt (rch true '.'), .star .spaceC,
                 rlit true "Şti", .opt (rch true '.')],
           rlit true "Şirketi"],
    .wb]

def orgPat10 : RE :=
  rcat [.wb, ralts [rlit true "Bakanlık", rlit true "Bakanlığı"], .wb]

def orgPat11 : RE :=
  rcat [.wb, ralts [rlit true "Müdürlük", rlit true "Müdürlüğü"], .wb]

def orgPat12 : RE :=
  rcat [.wb, ralts [rlit true "Dernek", rlit true "Derneği"], .wb]

def orgPat13 : RE :=
  rcat [.wb, ralts [rlit true "Vakıf", rlit true "Vakfı"], .wb]

def orgPat14 : RE :=
  rcat [.wb,
    ralts [rlit true "Ltd",
           rcat [rlit true "A", rch true '.', rlit true "Ş", rch true '.'],
           rlit true "Şti"],
    .wb]

def orgPat15 : RE :=
  rcat [.wb,
    ralts [rcat [rlit true "MERKEZ", .opt (rch true 'İ')], rlit true "MERKEZ"],
    .wb]

def orgPat16 : RE :=
  rcat [.wb, ralts [rlit true "DANIŞMA", rlit true "DANIŞ"], .wb]

def orgPat17 : RE :=
  rcat [.wb, rlit true "BİLGİ", rplus .spaceC,
    .opt (rcat [rlit true "DANIŞMA", rplus .spaceC]), rlit true "MERKEZ",
    .opt (rch true 'İ'), .wb]

def organization_patterns : List RE :=
  [orgPat1, orgPat2, orgPat3, orgPat4, orgPat5, orgPat6, orgPat7, orgPat8,
   orgPat9, orgPat10, orgPat11, orgPat12, orgPat13, orgPat14, orgPat15,
   orgPat16, orgPat17]

/-- Location patterns, in source order. -/
def locPat1 : RE := rcat [.wb, rlit true "BURSA", .wb]

def locPat2 : RE := rcat [.wb, rlit true "Bursa", .wb]

def locPat3 : RE :=
  rcat [.wb,
    ralts [rlit true "İstanbul", rlit true "Ankara", rlit true "İzmir",
           rlit true "Antalya", rlit true "Adana", rlit true "Konya"],
    .wb]

def locPat4 : RE :=
  rcat [.wb, nameWord, rplus .spaceC,
    ralts [rcat [rlit false "İl", .opt (rch false 'i')],
           rcat [rlit false "Şehr", .opt (rch false 'i')],
           rcat [rlit false "Mahalles", .opt (rch false 'i')],
           rcat [rlit false "Caddes", .opt (rch false 'i')],
           rcat [rlit false "Sokağ", .opt (rch false 'ı')]],
    .wb]

def location_patterns : List RE := [locPat1, locPat2, locPat3, locPat4]

/-- Date patterns, in source order. -/
def datePat1 : RE :=
  rcat [.wb, rep1to2 .digitC, .cls [('.', '.'), ('/', '/')] false,
    rep1to2 .digitC, .cls [('.', '.'), ('/', '/')] false, repN 4 .digitC, .wb]

def datePat2 : RE :=
  rcat [.wb, repN 4 .digitC, .cls [('.', '.'), ('/', '/')] false,
    rep1to2 .digitC, .cls [('.', '.'), ('/', '/')] false, rep1to2 .digitC, .wb]

def datePat3 : RE :=
  rcat [.wb, rep1to2 .digitC, rplus .spaceC,
    ralts [rlit true "Ocak", rlit true "Şubat", rlit true "Mart",
           rlit true "Nisan", rlit true "Mayıs", rlit true "Haziran",
           rlit true "Temmuz", rlit true "Ağustos", rlit true "Eylül",
           rlit true "Ekim", rlit true "Kasım", rlit true "Aralık"],
    rplus .spaceC, repN 4 .digitC, .wb]

def date_patterns : List RE := [datePat1, datePat2, datePat3]

/-- Legal-term patterns, in source order. -/
def legalPat1 : RE := rcat [.wb, ralts [rlit true "AVUKAT", rlit true "Avukat"], .wb]

def legalPat2 : RE := rcat [.wb, ralts [rlit true "HUKUK", rlit true "Hukuk"], .wb]

def legalPat3 : RE := rcat [.wb, ralts [rlit true "DAVA", rlit true "Dava"], .wb]

def legalPat4 : RE :=
  rcat [.wb,
    ralts [rcat [rlit true "MAHKEMES", .opt (rch true 'İ')], rlit true "Mahkeme"],
    .wb]

def legalPat5 : RE := rcat [.wb, ralts [rlit true "SAVCI", rlit true "Savcı"], .wb]

def legalPat6 : RE := rcat [.wb, ralts [rlit true "HAKİM", rlit true "Hakim"], .wb]

def legal_terms_patterns : List RE :=
  [legalPat1, legalPat2, legalPat3, legalPat4, legalPat5, legalPat6]

/-! ## `NLPProcessor._process_with_regex` -/

/-- One extracted mention, as the processor's entity dictionaries hold it. -/
structure PyEntity where
  text : List Char
  label : String
  sentence_idx : Option Nat
  sentence : Option (List Char)
deriving DecidableEq, Repr

/-- One relationship candidate, as the processor's dictionaries hold it. -/
structure PyRel where
  entity1 : List Char
  entity1_label : String
  entity2 : List Char
  entity2_label : String
  relation_type : String
  sentence : List Char
  sentence_idx : Nat
deriving DecidableEq, Repr

/-- The dictionary `process_text` returns. -/
structure NlpResult where
  entities : List PyEntity
  relationships : List PyRel
  total_sentences : Nat
  processed_sentences : Nat
deriving DecidableEq, Repr

/-- First-occurrence deduplication keyed by `key`, with the running set
of seen keys — the `seen_entities` / `seen_relationships` loops. -/
def dedupByKey {α β : Type} [DecidableEq β] (key : α → β) :
    List α → List β → List α
  | [], _ => []
  | x :: xs, seen =>
    if key x ∈ seen then dedupByKey key xs seen
    else x :: dedupByKey key xs (key x :: seen)

/-- The entity dedup key `(entity['text'].lower(), entity['label'])`. -/
def entKey (e : PyEntity) : List Char × String := (pyLower e.text, e.label)

/-- The relationship dedup key
`(rel['entity1'].lower(), rel['entity2'].lower(), rel['relation_type'])`. -/
def relKey (r : PyRel) : List Char × List Char × String :=
  (pyLower r.entity1, pyLower r.entity2, r.relation_type)

/-- The person branch: every match of every person pattern, stripped,
kept when longer than five characters and containing a space. -/
def detectPersons (idx : Nat) (s : List Char) : List PyEntity :=
  person_patterns.flatMap fun pat =>
    (finditer pat s).filterMap fun m =>
      let pt := pyStrip m.2
      if 5 < pt.length && pt.contains ' ' then
        some ⟨pt, "PERSON", some idx, some s⟩
      else none

/-- The organization-name expansion: look fifty characters around the
match, split the context into words, locate the first word the pattern
still finds, and when it is not the first word prepend up to two
preceding words. -/
def orgName (pat : RE) (s : List Char) (mstart : Nat) (mtxt : List Char) :
    List Char :=
  let start := mstart - 50
  let stop := min s.length (mstart + mtxt.length + 50)
  let context := (s.drop start).take (stop - start)
  let words := pySplitWs context
  match words.findIdx? (fun w => reSearch pat w) with
  | some i =>
    if 0 < i then
      List.intercalate [' '] ((words.drop (i - 2)).take (i + 1 - (i - 2)))
    else mtxt
  | none => mtxt

/-- The organization branch. -/
def detectOrgs (idx : Nat) (s : List Char) : List PyEntity :=
  organization_patterns.flatMap fun pat =>
    (finditer pat s).map fun m =>
      ⟨pyStrip (orgName pat s m.1 m.2), "ORGANIZATION", some idx, some s⟩

/-- The location, date and legal-term branches: every match, stripped. -/
def detectSimple (pats : List RE) (lab : String) (idx : Nat) (s : List Char) :
    List PyEntity :=
  pats.flatMap fun pat =>
    (finditer pat s).map fun m => ⟨pyStrip m.2, lab, some idx, some s⟩

/-- All detections for one (stripped) sentence, in source order. -/
def detectSentence (idx : Nat) (s : List Char) : List PyEntity :=
  detectPersons idx s ++ detectOrgs idx s ++
  detectSimple location_patterns "LOCATION" idx s ++
  detectSimple date_patterns "DATE" idx s ++
  detectSimple legal_terms_patterns "LEGAL_TERM" idx s

/-- Build the relationship dictionary for one within-sentence pair. -/
def mkRel (e1 e2 : PyEntity) (s : List Char) (idx : Nat) : PyRel :=
  ⟨e1.text, e1.label, e2.text, e2.label, "MENTIONED_WITH", s, idx⟩

/-- The nested pair loop: every ordered pair `i < j` of sentence
entities whose labels differ yields one relationship candidate. -/
def pairRels : List PyEntity → List Char → Nat → List PyRel
  | [], _, _ => []
  | e :: t, s, idx =>
    ((t.filter fun e2 => e.label ≠ e2.label).map fun e2 => mkRel e e2 s idx)
      ++ pairRels t s idx

/-- `re.split` on runs of sentence-ending punctuation `[.!?]+`. -/
def isSentSep (c : Char) : Bool := c = '.' || c = '!' || c = '?'

/-- Accumulator form of the sentence split (`inSep` marks a running
separator run; empty fields are kept, as `re.split` keeps them). -/
def splitSentsAux : Bool → List Char → List Char → List (List Char)
  | _, cur, [] => [cur.reverse]
  | inSep, cur, c :: t =>
    if isSentSep c then
      if inSep then splitSentsAux true cur t
      else cur.reverse :: splitSentsAux true [] t
    else splitSentsAux false (c :: cur) t

/-- `re.split(r'[.!?]+', text)`. -/
def splitSents (s : List Char) : List (List Char) := splitSentsAux false [] s

/-- Per-sentence work of `_process_with_regex`: strip, skip short
sentences, detect mentions, pair relationships. -/
def sentenceBlock (idx : Nat) (raw : List Char) : List PyEntity × List PyRel :=
  let s := pyStrip raw
  if s.length < 10 then ([], [])
  else
    let ents := detectSentence idx s
    (ents, pairRels ents s idx)

/-- `NLPProcessor._process_with_regex`. -/
def process_with_regex (text : List Char) : NlpResult :=
  let sents := splitSents text
  let blocks := sents.enum.map fun p => sentenceBlock p.1 p.2
  { entities := dedupByKey entKey (blocks.flatMap Prod.fst) []
    relationships := dedupByKey relKey (blocks.flatMap Prod.snd) []
    total_sentences := sents.length
    processed_sentences :=
      (sents.filter fun sn => 10 ≤ (pyStrip sn).length).length }

/-! ## `NLPProcessor._process_with_transformers` and `process_text` -/

/-- One aggregated token-classification result, with the two label keys
the code coalesces. -/
structure NerItem where
  entity_group : Option String
  entity : Option String
  word : List Char
deriving DecidableEq, Repr

/-- Python `a or b` on optional strings (`None` and `""` are falsy). -/
def pyOrStr (a b : Option String) : Option String :=
  match a with
  | some s => if s = "" then b else some s
  | none => b

/-- The `label_map` lookup with its `'Entity'` default. -/
def label_map (raw : Option String) : String :=
  match raw with
  | none => "Entity"
  | some r =>
    if r = "PER" || r = "B-PER" || r = "I-PER" then "PERSON"
    else if r = "ORG" || r = "B-ORG" || r = "I-ORG" then "ORGANIZATION"
    else if r = "LOC" || r = "B-LOC" || r = "I-LOC" then "LOCATION"
    else "Entity"

/-- `NLPProcessor._process_with_transformers`, parameterized by the NER
pipeline, which either returns its aggregated items or raises.  A raise
is caught and the whole call degrades to `_process_with_regex`. -/
def process_with_transformers
    (ner : List Char → Except Unit (List NerItem)) (text : List Char) :
    NlpResult :=
  match ner text with
  | .error _ => process_with_regex text
  | .ok items =>
    let sents := splitSents text
    let nerEnts := items.filterMap fun it =>
      let lbl := label_map (pyOrStr it.entity_group it.entity)
      let t := pyStrip it.word
      if t = [] then none else some (⟨t, lbl, none, none⟩ : PyEntity)
    let regexOnly := process_with_regex text
    let extra := regexOnly.entities.filter fun e =>
      e.label = "DATE" || e.label = "LEGAL_TERM"
    let entities := nerEnts ++ extra
    let rels := sents.enum.flatMap fun p =>
      let s := pyStrip p.2
      if s.length < 10 then []
      else
        let sentEnts := (entities.filter fun ent =>
            ent.sentence_idx.isNone && !ent.text.isEmpty && pySub ent.text s).map
          fun ent => { ent with sentence_idx := some p.1, sentence := some s }
        pairRels sentEnts s p.1
    { entities := dedupByKey entKey entities []
      relationships := dedupByKey relKey rels []
      total_sentences := sents.length
      processed_sentences :=
        (sents.filter fun sn => 10 ≤ (pyStrip sn).length).length }

/-- `NLPProcessor.process_text`: normalize, then dispatch on the
backend flags exactly as the source does.  The spaCy branch is a stub
(`pass`) in the source and therefore returns Python `None`; a loaded
pipeline is `some`, a failed model load leaves the flag `false` and the
pipeline `none`. -/
def process_text (use_spacy : Bool) (use_transformers_ner : Bool)
    (ner_pipeline : Option (List Char → Except Unit (List NerItem)))
    (text : List Char) : Option NlpResult :=
  let t := normalize_text text
  if use_spacy then none
  else if use_transformers_ner && ner_pipeline.isSome then
    some (process_with_transformers (ner_pipeline.getD fun _ => .error ()) t)
  else some (process_with_regex t)

/-! ## `config.py` defaults -/

/-- `ENABLE_FUZZY_MATCH` with no environment override:
`os.getenv(..., "true").lower() == "true"`. -/
def ENABLE_FUZZY_MATCH : Bool := pyLower "true".toList = "true".toList

/-- `FUZZY_THRESHOLD` with no environment override: `int("90")`. -/
def FUZZY_THRESHOLD : Nat := 90

/-! ## A string-similarity score (spec-modelled)

Modelled from the spec: the specification describes fuzzy resolution as
"a string-similarity score between the candidate key and existing
canonical keys ... on a 0–100 scale", but the repository contains no
similarity implementation anywhere (the configuration flags above are
never consulted).  The standard sequence ratio — twice the number of
matching characters over the total length, scaled to 100, with matches
counted by a longest common subsequence — realizes the spec's score so
that the claim about it can be stated. -/

/-- Longest-common-subsequence length (fuelled for structural
recursion; the fuel is always ample). -/
def lcsLenF : Nat → List Char → List Char → Nat
  | 0, _, _ => 0
  | _ + 1, [], _ => 0
  | _ + 1, _ :: _, [] => 0
  | f + 1, a :: as, b :: bs =>
    if a = b then lcsLenF f as bs + 1
    else max (lcsLenF f (a :: as) bs) (lcsLenF f as (b :: bs))

/-- Longest-common-subsequence length. -/
def lcsLen (a b : List Char) : Nat := lcsLenF (a.length + b.length + 1) a b

/-- Modelled from the spec: similarity ratio on the 0–100 scale. -/
def simRatio (a b : List Char) : Nat :=
  if a.length + b.length = 0 then 100
  else 200 * lcsLen a b / (a.length + b.length)

/-! ## `graph/builder.py`

The Neo4j store is modelled as explicit lists of entity nodes, document
nodes, entity–entity relationships and MENTIONED_IN edges; the Cypher
`MERGE` statements the builder issues become match-all-update-or-append
operations keyed exactly as the queries key them.  Each `session.run`
call consumes one element of a failure schedule (`true` = the store
raises on that call), so the `try/except` wrappers of the builder are
translated faithfully: a raising call performs no write and control
transfers to the `except` branch, which returns `False`. -/

/-- `GraphBuilder._get_node_label`. -/
def get_node_label (entity_label : String) : String :=
  if entity_label = "PERSON" then "Person"
  else if entity_label = "ORGANIZATION" then "Organization"
  else if entity_label = "LOCATION" then "Location"
  else if entity_label = "DATE" then "Date"
  else if entity_label = "LEGAL_TERM" then "LegalTerm"
  else "Entity"

/-- An entity dictionary as the builder receives it
(`{'text', 'label', 'sentence'}`; absent sentence defaults to `''`). -/
structure BEntity where
  text : List Char
  label : String
  sentence : List Char := []
deriving DecidableEq, Repr

/-- A document dictionary (`{'url', 'title', 'content'}`). -/
structure PyDoc where
  url : List Char
  title : List Char
  content : List Char
deriving DecidableEq, Repr

/-- A stored entity node: one Neo4j label, the `normalized_key` the
`MERGE` keys on, and the properties the builder writes. -/
structure ENode where
  label : String
  normalized_key : List Char
  name : Option (List Char)
  value : Option (List Char)
  etype : Option String
  mention_count : Nat
deriving DecidableEq, Repr

/-- A stored `Document` node. -/
structure DocNode where
  url : List Char
  title : List Char
  content : List Char
  content_length : Nat
deriving DecidableEq, Repr

/-- A stored entity–entity relationship, keyed by its endpoint
identities and type as the `MERGE` pattern keys it. -/
structure ERel where
  fromLabel : String
  fromKey : List Char
  toLabel : String
  toKey : List Char
  rtype : String
  strength : Nat
  document_url : Option (List Char)
deriving DecidableEq, Repr

/-- A stored `MENTIONED_IN` edge. -/
structure MEdge where
  entLabel : String
  entKey : List Char
  docUrl : List Char
  sentence : List Char
deriving DecidableEq, Repr

/-- The whole graph store. -/
structure GState where
  enodes : List ENode
  docs : List DocNode
  rels : List ERel
  medges : List MEdge
deriving DecidableEq, Repr

/-- The empty store. -/
def emptyG : GState := ⟨[], [], [], []⟩

/-- Does `n` match the `MERGE` head `(n:l {normalized_key: k})`? -/
def eMatches (l : String) (k : List Char) (n : ENode) : Bool :=
  n.label = l && n.normalized_key = k

/-- Number of entity nodes matching label `l` and key `k`. -/
def countE (st : GState) (l : String) (k : List Char) : Nat :=
  (st.enodes.filter (eMatches l k)).length

/-- Is some entity node labelled `l` stored under key `k`? -/
def hasE (st : GState) (l : String) (k : List Char) : Bool :=
  st.enodes.any (eMatches l k)

/-- Document-node match on `url`. -/
def docMatches (u : List Char) (d : DocNode) : Bool := d.url = u

/-- Relationship match on endpoint identities and type. -/
def relMatches (fl : String) (fk : List Char) (tl : String) (tk : List Char)
    (rt : String) (r : ERel) : Bool :=
  r.fromLabel = fl && r.fromKey = fk && r.toLabel = tl && r.toKey = tk &&
    r.rtype = rt

/-- `MENTIONED_IN`-edge match. -/
def mMatches (el : String) (ek : List Char) (du : List Char) (m : MEdge) :
    Bool :=
  m.entLabel = el && m.entKey = ek && m.docUrl = du

/-- Is a document with this URL stored? -/
def hasDoc (st : GState) (u : List Char) : Bool :=
  st.docs.any (docMatches u)

/-- Number of stored documents with this URL. -/
def docCount (st : GState) (u : List Char) : Nat :=
  (st.docs.filter (docMatches u)).length

/-- Is this relationship (by endpoint identities and type) stored? -/
def hasRel (st : GState) (fl : String) (fk : List Char) (tl : String)
    (tk : List Char) (rt : String) : Bool :=
  st.rels.any (relMatches fl fk tl tk rt)

/-- Is this `MENTIONED_IN` edge stored? -/
def hasM (st : GState) (el : String) (ek : List Char) (du : List Char) :
    Bool :=
  st.medges.any (mMatches el ek du)

/-- Consume one `session.run` outcome from the failure schedule
(an exhausted schedule means the store keeps succeeding). -/
def runStep (sched : List Bool) : Bool × List Bool :=
  (sched.headD false, sched.tail)

/-- Cypher `MERGE` on entity nodes: update every match, or append the
freshly created node. -/
def mergeE (l : String) (k : List Char) (upd : ENode → ENode) (mk : ENode)
    (st : GState) : GState :=
  if st.enodes.any (eMatches l k) then
    { st with enodes := st.enodes.map fun n => if eMatches l k n then upd n else n }
  else { st with enodes := st.enodes ++ [mk] }

/-- The `MERGE`+`SET` of `create_document_node`. -/
def mergeDoc (d : PyDoc) (st : GState) : GState :=
  if st.docs.any (docMatches d.url) then
    { st with docs := st.docs.map fun x =>
        if docMatches d.url x then
          { x with title := d.title, content := d.content,
                   content_length := d.content.length }
        else x }
  else
    { st with docs := st.docs ++ [⟨d.url, d.title, d.content, d.content.length⟩] }

/-- `GraphBuilder.create_document_node`: merge the document by URL and
overwrite its display properties; `result.single()` demands exactly one
row. -/
def create_document_node (d : PyDoc) (st : GState) (sched : List Bool) :
    GState × Bool × List Bool :=
  let (fail, sch) := runStep sched
  if fail then (st, false, sch)
  else
    let rows := let c := (st.docs.filter (docMatches d.url)).length
                if c = 0 then 1 else c
    (mergeDoc d st, decide (rows = 1), sch)

/-- `entity['text'].strip()` passed through `normalize_text`. -/
def entityName (e : BEntity) : List Char := normalize_text (pyStrip e.text)

/-- The resolution key the builder computes for an entity dictionary. -/
def entityKey (e : BEntity) : List Char := make_key (entityName e)

/-- The effective Neo4j node label the `MERGE` of
`create_or_update_node` uses: the query for the `LegalTerm` (and any
unknown) branch writes `MERGE (n:Entity ...)`. -/
def effLabel (entity_label : String) : String :=
  let nl := get_node_label entity_label
  if nl = "Date" then "Date"
  else if nl = "Person" || nl = "Organization" || nl = "Location" then nl
  else "Entity"

/-- `SET` clauses of the `Date` branch: `n.value = $name`,
increment `mention_count`. -/
def updDate (name : List Char) (n : ENode) : ENode :=
  { n with value := some name, mention_count := n.mention_count + 1 }

/-- `SET` clauses of the `Person`/`Organization`/`Location` branch:
`n.name = COALESCE(n.name, $name)`, increment `mention_count`. -/
def updNamed (name : List Char) (n : ENode) : ENode :=
  { n with name := some (n.name.getD name),
           mention_count := n.mention_count + 1 }

/-- `SET` clauses of the generic `Entity` branch: coalesced name, raw
label written to `n.type`, increment `mention_count`. -/
def updEntity (name : List Char) (etype : String) (n : ENode) : ENode :=
  { n with name := some (n.name.getD name), etype := some etype,
           mention_count := n.mention_count + 1 }

/-- `GraphBuilder.create_or_update_node`. -/
def create_or_update_node (e : BEntity) (st : GState) (sched : List Bool) :
    GState × Bool × List Bool :=
  let (fail, sch) := runStep sched
  if fail then (st, false, sch)
  else
    let name := entityName e
    let key := make_key name
    let nl := get_node_label e.label
    let st' :=
      if nl = "Date" then
        mergeE "Date" key (updDate name) ⟨"Date", key, none, some name, none, 1⟩ st
      else if nl = "Person" || nl = "Organization" || nl = "Location" then
        mergeE nl key (updNamed name) ⟨nl, key, some name, none, none, 1⟩ st
      else
        mergeE "Entity" key (updEntity name e.label)
          ⟨"Entity", key, some name, none, some e.label, 1⟩ st
    let rows := let c := countE st (effLabel e.label) key
                if c = 0 then 1 else c
    (st', decide (rows = 1), sch)

/-- `GraphBuilder.create_relationship`: `MATCH` both endpoints by label
and key, `MERGE` the typed edge between them with strength accumulation
and last-write-wins `document_url`; zero matched rows yield `False`
without touching the store. -/
def create_relationship (e1 e2 : BEntity) (relation_type : String)
    (document_url : Option (List Char)) (st : GState) (sched : List Bool) :
    GState × Bool × List Bool :=
  let (fail, sch) := runStep sched
  if fail then (st, false, sch)
  else
    let l1 := get_node_label e1.label
    let l2 := get_node_label e2.label
    let k1 := entityKey e1
    let k2 := entityKey e2
    let rows := countE st l1 k1 * countE st l2 k2
    if rows = 0 then (st, false, sch)
    else
      let st' :=
        if st.rels.any (relMatches l1 k1 l2 k2 relation_type) then
          { st with rels := st.rels.map fun r =>
              if relMatches l1 k1 l2 k2 relation_type r then
                { r with strength := r.strength + 1,
                         document_url := document_url }
              else r }
        else
          { st with rels :=
              st.rels ++ [⟨l1, k1, l2, k2, relation_type, 1, document_url⟩] }
      (st', decide (rows = 1), sch)

/-- One iteration of the `link_entities_to_document` loop: `MATCH` the
document and the entity, `MERGE` the `MENTIONED_IN` edge, `SET` its
sentence (no row demanded, so a failed `MATCH` is silent). -/
def linkOne (e : BEntity) (docUrl : List Char) (st : GState) : GState :=
  let el := get_node_label e.label
  let k := entityKey e
  if st.docs.any (docMatches docUrl) && st.enodes.any (eMatches el k) then
    if st.medges.any (mMatches el k docUrl) then
      { st with medges := st.medges.map fun m =>
          if mMatches el k docUrl m then { m with sentence := e.sentence }
          else m }
    else { st with medges := st.medges ++ [⟨el, k, docUrl, e.sentence⟩] }
  else st

/-- `GraphBuilder.link_entities_to_document`. -/
def link_entities_to_document : List BEntity → List Char → GState →
    List Bool → GState × Bool × List Bool
  | [], _, st, sched => (st, true, sched)
  | e :: rest, url, st, sched =>
    let (fail, sch) := runStep sched
    if fail then (st, false, sch)
    else link_entities_to_document rest url (linkOne e url st) sch

/-- Node count of one label in `get_graph_stats`. -/
def countLabel (st : GState) (l : String) : Nat :=
  (st.enodes.filter fun n => n.label = l).length

/-- `total_nodes` of `get_graph_stats`: the per-label counts summed over
the seven labels the query enumerates (Document nodes counted from the
document list). -/
def total_nodes (st : GState) : Nat :=
  countLabel st "Person" + countLabel st "Organization" +
  countLabel st "Location" + countLabel st "Date" + st.docs.length +
  countLabel st "Entity" + countLabel st "LegalTerm"

/-- The total relationship count of `get_graph_stats`
(`MATCH ()-[r]->()` counts every edge of every type). -/
def total_relationships (st : GState) : Nat :=
  st.rels.length + st.medges.length

/-! ### The per-document ingestion sequence of `main.step4_build_graph` -/

/-- A builder write with an all-succeeding store. -/
def createDocumentNodeOk (d : PyDoc) (st : GState) : GState × Bool :=
  let r := create_document_node d st []
  (r.1, r.2.1)

/-- Entity upsert with an all-succeeding store. -/
def createOrUpdateNodeOk (e : BEntity) (st : GState) : GState :=
  (create_or_update_node e st []).1

/-- Relationship upsert with an all-succeeding store. -/
def createRelationshipOk (e1 e2 : BEntity) (rt : String)
    (url : Option (List Char)) (st : GState) : GState :=
  (create_relationship e1 e2 rt url st []).1

/-- Entity–document linking with an all-succeeding store. -/
def linkEntitiesOk (es : List BEntity) (url : List Char) (st : GState) :
    GState :=
  (link_entities_to_document es url st []).1

/-- The entity-upsert loop of `step4_build_graph`. -/
def ingestEntities (es : List BEntity) (st : GState) : GState :=
  es.foldl (fun a e => createOrUpdateNodeOk e a) st

/-- The first endpoint dictionary `{'text', 'label'}` that
`step4_build_graph` builds from a processed relationship. -/
def relE1 (r : PyRel) : BEntity := ⟨r.entity1, r.entity1_label, []⟩

/-- The second endpoint dictionary. -/
def relE2 (r : PyRel) : BEntity := ⟨r.entity2, r.entity2_label, []⟩

/-- The number of endpoint-pair rows the relationship query of a
processed relationship would match. -/
def relRows (r : PyRel) (st : GState) : Nat :=
  countE st (get_node_label (relE1 r).label) (entityKey (relE1 r)) *
    countE st (get_node_label (relE2 r).label) (entityKey (relE2 r))

/-- Is the edge a processed relationship merges already stored? -/
def relStored (r : PyRel) (st : GState) : Bool :=
  hasRel st (get_node_label (relE1 r).label) (entityKey (relE1 r))
    (get_node_label (relE2 r).label) (entityKey (relE2 r)) r.relation_type

/-- The relationship loop of `step4_build_graph`: each processed
relationship dictionary is turned into two `{'text', 'label'}` entities
and upserted with the document URL. -/
def ingestRels (rs : List PyRel) (url : List Char) (st : GState) : GState :=
  rs.foldl
    (fun a r =>
      createRelationshipOk (relE1 r) (relE2 r) r.relation_type (some url) a)
    st

/-- An NLP entity dictionary as the builder receives it in step 4. -/
def toBEntity (e : PyEntity) : BEntity := ⟨e.text, e.label, e.sentence.getD []⟩

/-- One document's ingestion in `step4_build_graph`: document node
first (skipping the rest when it fails), then every entity, then the
entity–document links, then every relationship. -/
def ingestDocument (d : PyDoc) (es : List BEntity) (rs : List PyRel)
    (st : GState) : GState :=
  let r := createDocumentNodeOk d st
  if !r.2 then r.1
  else
    let st2 := ingestEntities es r.1
    let st3 := if es = [] then st2 else linkEntitiesOk es d.url st2
    ingestRels rs d.url st3

/-! ### The builder's write operations as an inductive, for reachability -/

/-- One builder write. -/
inductive GOp where
  | doc : PyDoc → GOp
  | node : BEntity → GOp
  | rel : BEntity → BEntity → String → Option (List Char) → GOp
  | link : List BEntity → List Char → GOp

/-- Apply one write with an all-succeeding store. -/
def applyOp (st : GState) : GOp → GState
  | .doc d => (createDocumentNodeOk d st).1
  | .node e => createOrUpdateNodeOk e st
  | .rel e1 e2 t u => createRelationshipOk e1 e2 t u st
  | .link es u => linkEntitiesOk es u st

/-- Apply a sequence of writes starting from a state. -/
def applyOps (ops : List GOp) (st : GState) : GState := ops.foldl applyOp st

/-! ### Derived views of `create_or_update_node` used by the proofs -/

/-- The property update the matched branch of `create_or_update_node`
applies, by effective label. -/
def updFor (e : BEntity) : ENode → ENode :=
  let nl := get_node_label e.label
  if nl = "Date" then updDate (entityName e)
  else if nl = "Person" || nl = "Organization" || nl = "Location" then
    updNamed (entityName e)
  else updEntity (entityName e) e.label

/-- The node the creating branch of `create_or_update_node` appends. -/
def mkFor (e : BEntity) : ENode :=
  let nl := get_node_label e.label
  let name := entityName e
  let key := entityKey e
  if nl = "Date" then ⟨"Date", key, none, some name, none, 1⟩
  else if nl = "Person" || nl = "Organization" || nl = "Location" then
    ⟨nl, key, some name, none, none, 1⟩
  else ⟨"Entity", key, some name, none, some e.label, 1⟩

/-- Shape equality between stores: same per-node label sequence (hence
the same per-label counts) and the same edge/document counts. -/
def SameShape (a b : GState) : Prop :=
  a.enodes.map ENode.label = b.enodes.map ENode.label ∧
  a.docs.length = b.docs.length ∧
  a.rels.length = b.rels.length ∧
  a.medges.length = b.medges.length

/-! ### Concrete scenario data for the claims -/

/-- The specification's scenario sentence. -/
def scenarioText : List Char :=
  "Bursa Barosu Başkanı Ahmet Yılmaz bir davaya katıldı.".toList

/-- A sentence holding the same legal term in two spellings whose
lowercase forms differ while their resolution keys agree. -/
def hakimText : List Char := "Duruşmada HAKİM ve Hakim konuştu.".toList

/-- A sentence whose only mentions are two Person mentions. -/
def twoPersonText : List Char := "Ahmet Yılmaz ile Mehmet Demir görüştü.".toList

/-- An arbitrary document text for the degradation witness. -/
def degradeText : List Char := "Bursa Barosu avukatları toplandı.".toList

/-- A Person upsert whose text is "Bursa". -/
def bursaPerson : BEntity := { text := "Bursa".toList, label := "PERSON" }

/-- A Location upsert whose text is "Bursa" (same key as above). -/
def bursaLocation : BEntity := { text := "Bursa".toList, label := "LOCATION" }

/-- An Organization upsert, key `bursa barosu`. -/
def orgBaro : BEntity := { text := "Bursa Barosu".toList, label := "ORGANIZATION" }

/-- A near-duplicate Organization upsert, key `bursa barosuu`. -/
def orgBaroTypo : BEntity :=
  { text := "Bursa Barosuu".toList, label := "ORGANIZATION" }

/-- A Date upsert in uppercase spelling. -/
def dateUpper : BEntity := { text := "15 OCAK 2024".toList, label := "DATE" }

/-- The same date in title-case spelling (same key). -/
def dateTitle : BEntity := { text := "15 Ocak 2024".toList, label := "DATE" }

/-- A Person upsert in uppercase spelling. -/
def personUpper : BEntity := { text := "BURSA".toList, label := "PERSON" }

/-- A document record for witnesses. -/
def docA : PyDoc :=
  { url := "https://bursabarosu.org.tr/haber/1".toList,
    title := "Haber".toList, content := "Bursa Barosu duyurusu.".toList }

end BursaKG

/-! # Theorems -/

namespace BursaKG

set_option maxRecDepth 4000000

/-- C9 (confirmed): the resolution key function is case- and
diacritic-insensitive and trims whitespace — `make_key "BURSA"`,
`make_key "Bursa"` and `make_key "bursa "` all return the same string
(namely `"bursa"`). -/
theorem C9_make_key_insensitive :
    make_key "BURSA".toList = make_key "Bursa".toList ∧
    make_key "Bursa".toList = make_key "bursa ".toList ∧
    make_key "BURSA".toList = "bursa".toList := by
  exact ⟨by decide, by decide, by decide⟩

/-- C3 (counterexample): on the scenario sentence the pattern backend
does not return three mentions of which one is a LegalTerm and three
relationships — it returns four mentions, none of them a LegalTerm, and
five relationships. -/
theorem C3_counterexample :
    ¬((process_with_regex (normalize_text scenarioText)).entities.length = 3 ∧
      ((process_with_regex (normalize_text scenarioText)).entities.filter
        (fun e => e.label = "LEGAL_TERM")).length = 1 ∧
      (process_with_regex (normalize_text scenarioText)).relationships.length = 3) := by
  decide

/-- C3 (amended): on the scenario sentence the pattern backend yields
exactly four mentions — Person "Bursa Barosu Başkanı", Person
"Ahmet Yılmaz", Organization "Bursa Barosu", Location "Bursa" (no
LegalTerm: the `Dava` pattern cannot match inside the inflected word
"davaya") — and exactly five relationship candidates, each typed
MENTIONED_WITH, each pairing mentions of two distinct kinds. -/
theorem C3_amended :
    (process_with_regex (normalize_text scenarioText)).entities.map
        (fun e => (e.text, e.label)) =
      [("Bursa Barosu Başkanı".toList, "PERSON"),
       ("Ahmet Yılmaz".toList, "PERSON"),
       ("Bursa Barosu".toList, "ORGANIZATION"),
       ("Bursa".toList, "LOCATION")] ∧
    (process_with_regex (normalize_text scenarioText)).relationships.map
        (fun r => (r.entity1, r.entity1_label, r.entity2, r.entity2_label,
                   r.relation_type)) =
      [("Bursa Barosu Başkanı".toList, "PERSON",
        "Bursa Barosu".toList, "ORGANIZATION", "MENTIONED_WITH"),
       ("Bursa Barosu Başkanı".toList, "PERSON",
        "Bursa".toList, "LOCATION", "MENTIONED_WITH"),
       ("Ahmet Yılmaz".toList, "PERSON",
        "Bursa Barosu".toList, "ORGANIZATION", "MENTIONED_WITH"),
       ("Ahmet Yılmaz".toList, "PERSON",
        "Bursa".toList, "LOCATION", "MENTIONED_WITH"),
       ("Bursa Barosu".toList, "ORGANIZATION",
        "Bursa".toList, "LOCATION", "MENTIONED_WITH")] := by
  exact ⟨by decide, by decide⟩

/-- C4 (counterexample): a single extraction can return two mentions of
the same kind whose texts have equal `make_key` — "HAKİM" and "Hakim"
both survive, because the implemented dedup key is the lowercased text,
and Python lowercases "HAKİM" to "haki̇m" (with a combining dot), which
differs from "hakim". -/
theorem C4_counterexample :
    make_key "HAKİM".toList = make_key "Hakim".toList ∧
    (process_with_regex (normalize_text hakimText)).entities.map
        (fun e => (e.text, e.label)) =
      [("HAKİM".toList, "LEGAL_TERM"), ("Hakim".toList, "LEGAL_TERM")] := by
  exact ⟨by decide, by decide⟩

/-! ### Structure of first-occurrence deduplication -/

/-- Everything `dedupByKey` returns has a key outside the seen set. -/
theorem dedupByKey_not_seen {α β : Type} [DecidableEq β] (key : α → β) :
    ∀ (xs : List α) (seen : List β) (y : α),
      y ∈ dedupByKey key xs seen → key y ∉ seen := by
  intro xs
  induction xs with
  | nil => intro seen y h; simp [dedupByKey] at h
  | cons x t ih =>
    intro seen y h
    simp only [dedupByKey] at h
    split at h
    · exact ih _ y h
    · rcases List.mem_cons.mp h with rfl | hm
      · assumption
      · intro hc
        exact ih _ y hm (List.mem_cons_of_mem _ hc)

/-- `dedupByKey` returns a list with pairwise-distinct keys. -/
theorem dedupByKey_pairwise {α β : Type} [DecidableEq β] (key : α → β) :
    ∀ (xs : List α) (seen : List β),
      (dedupByKey key xs seen).Pairwise (fun a b => key a ≠ key b) := by
  intro xs
  induction xs with
  | nil => intro seen; simp [dedupByKey]
  | cons x t ih =>
    intro seen
    simp only [dedupByKey]
    split
    · exact ih _
    · refine List.Pairwise.cons (fun b hb hkey => ?_) (ih _)
      exact dedupByKey_not_seen key t (key x :: seen) b hb
        (by rw [← hkey]; exact List.mem_cons_self _ _)

/-- `dedupByKey` only keeps input elements. -/
theorem mem_dedupByKey {α β : Type} [DecidableEq β] (key : α → β) :
    ∀ (xs : List α) (seen : List β) (y : α),
      y ∈ dedupByKey key xs seen → y ∈ xs := by
  intro xs
  induction xs with
  | nil => intro seen y h; simp [dedupByKey] at h
  | cons x t ih =>
    intro seen y h
    simp only [dedupByKey] at h
    split at h
    · exact List.mem_cons_of_mem _ (ih _ y h)
    · rcases List.mem_cons.mp h with rfl | hm
      · exact List.mem_cons_self _ _
      · exact List.mem_cons_of_mem _ (ih _ y hm)

/-- Every input key is represented: either it was already seen, or some
returned element carries it. -/
theorem dedupByKey_covers {α β : Type} [DecidableEq β] (key : α → β) :
    ∀ (xs : List α) (seen : List β) (x : α), x ∈ xs →
      key x ∈ seen ∨ ∃ y ∈ dedupByKey key xs seen, key y = key x := by
  intro xs
  induction xs with
  | nil => intro seen x hx; simp at hx
  | cons a t ih =>
    intro seen x hx
    simp only [dedupByKey]
    rcases List.mem_cons.mp hx with rfl | hxt
    · split
      · left; assumption
      · right; exact ⟨x, List.mem_cons_self _ _, rfl⟩
    · split
      · rcases ih seen x hxt with h1 | ⟨y, hy, hk⟩
        · left; exact h1
        · right; exact ⟨y, hy, hk⟩
      · rcases ih (key a :: seen) x hxt with h1 | ⟨y, hy, hk⟩
        · rcases List.mem_cons.mp h1 with heq | hseen
          · right; exact ⟨a, List.mem_cons_self _ _, heq.symm⟩
          · left; exact hseen
        · right; exact ⟨y, List.mem_cons_of_mem _ hy, hk⟩

/-- C4 (amended): within a single extraction call the returned mention
list is deduplicated by the pair (Python-lowercased text, kind) — the
key actually implemented — so no two returned mentions share that pair;
the resolution key `make_key` plays no role in this dedup. -/
theorem C4_amended (text : List Char) :
    (process_with_regex text).entities.Pairwise
      (fun a b => entKey a ≠ entKey b) :=
  dedupByKey_pairwise entKey _ []

/-! ### Relationship candidates pair distinct kinds (C7) -/

/-- Every relationship `pairRels` produces has distinct endpoint labels,
both taken from entities of the paired list. -/
theorem pairRels_mem {s : List Char} {idx : Nat} {r : PyRel} :
    ∀ {es : List PyEntity}, r ∈ pairRels es s idx →
      r.entity1_label ≠ r.entity2_label ∧
        ∃ e1 ∈ es, ∃ e2 ∈ es,
          r.entity1_label = e1.label ∧ r.entity2_label = e2.label := by
  intro es
  induction es with
  | nil => intro h; simp [pairRels] at h
  | cons e t ih =>
    intro h
    simp only [pairRels, List.mem_append] at h
    rcases h with h | h
    · rcases List.mem_map.mp h with ⟨e2, he2, rfl⟩
      have hf := List.mem_filter.mp he2
      have hne : e.label ≠ e2.label := by
        have := hf.2; simpa using this
      exact ⟨hne, e, List.mem_cons_self _ _, e2,
        List.mem_cons_of_mem _ hf.1, rfl, rfl⟩
    · obtain ⟨hne, e1, he1, e2, he2, h1, h2⟩ := ih h
      exact ⟨hne, e1, List.mem_cons_of_mem _ he1, e2,
        List.mem_cons_of_mem _ he2, h1, h2⟩

/-- Any relationship the regex backend returns has distinct endpoint
kinds, and both kinds are kinds of returned mentions. -/
theorem process_rel_labels (text : List Char) (r : PyRel)
    (hr : r ∈ (process_with_regex text).relationships) :
    r.entity1_label ≠ r.entity2_label ∧
      ∃ e1 ∈ (process_with_regex text).entities,
        ∃ e2 ∈ (process_with_regex text).entities,
          r.entity1_label = e1.label ∧ r.entity2_label = e2.label := by
  have hr2 := mem_dedupByKey relKey _ [] r hr
  rw [List.mem_flatMap] at hr2
  obtain ⟨blk, hblk, hrblk⟩ := hr2
  rcases List.mem_map.mp hblk with ⟨p, hp, rfl⟩
  by_cases hlen : (pyStrip p.2).length < 10
  · simp [sentenceBlock, hlen] at hrblk
  · have hrp : r ∈ pairRels (detectSentence p.1 (pyStrip p.2)) (pyStrip p.2) p.1 := by
      simpa [sentenceBlock, hlen] using hrblk
    obtain ⟨hne, e1, he1, e2, he2, h1, h2⟩ := pairRels_mem hrp
    refine ⟨hne, ?_⟩
    have hmem : ∀ e ∈ detectSentence p.1 (pyStrip p.2),
        ∃ y ∈ (process_with_regex text).entities, y.label = e.label := by
      intro e he
      have hin : e ∈ ((splitSents text).enum.map fun q =>
          sentenceBlock q.1 q.2).flatMap Prod.fst := by
        rw [List.mem_flatMap]
        refine ⟨sentenceBlock p.1 p.2, List.mem_map.mpr ⟨p, hp, rfl⟩, ?_⟩
        simpa [sentenceBlock, hlen] using he
      rcases dedupByKey_covers entKey _ [] e hin with h0 | ⟨y, hy, hk⟩
      · simp at h0
      · refine ⟨y, hy, ?_⟩
        have := congrArg Prod.snd hk
        simpa [entKey] using this
    obtain ⟨y1, hy1, hl1⟩ := hmem e1 he1
    obtain ⟨y2, hy2, hl2⟩ := hmem e2 he2
    exact ⟨y1, hy1, y2, hy2, by rw [h1, hl1], by rw [h2, hl2]⟩

/-- C7 (confirmed): relationship candidates only ever pair mentions of
two different kinds, and an extraction whose mentions are all of one
kind yields no relationship candidates at all. -/
theorem C7_cross_kind :
    (∀ (text : List Char) (r : PyRel),
      r ∈ (process_with_regex text).relationships →
        r.entity1_label ≠ r.entity2_label) ∧
    (∀ (text : List Char) (L : String),
      (∀ e ∈ (process_with_regex text).entities, e.label = L) →
      (process_with_regex text).relationships = []) := by
  constructor
  · intro text r hr
    exact (process_rel_labels text r hr).1
  · intro text L hall
    by_contra hne
    obtain ⟨r, hr⟩ := List.exists_mem_of_ne_nil _ hne
    obtain ⟨hner, e1, he1, e2, he2, h1, h2⟩ := process_rel_labels text r hr
    exact hner (by rw [h1, h2, hall e1 he1, hall e2 he2])

/-- C7 witness: the two-Person sentence has only Person mentions and,
by the theorem, zero relationship candidates. -/
theorem C7_witness :
    (∀ e ∈ (process_with_regex (normalize_text twoPersonText)).entities,
      e.label = "PERSON") ∧
    (process_with_regex (normalize_text twoPersonText)).relationships = [] :=
  ⟨by decide, C7_cross_kind.2 (normalize_text twoPersonText) "PERSON" (by decide)⟩

/-! ### Backend degradation (C8) -/

/-- C8 (confirmed): if the model pipeline raises during processing, the
extraction call still returns — it returns exactly the pattern-based
result; and a failed model load (flag off, no pipeline) routes the call
to the pattern backend as well. -/
theorem C8_degrade :
    (∀ (text : List Char) (pl : List Char → Except Unit (List NerItem)),
      pl (normalize_text text) = .error () →
      process_text false true (some pl) text =
        some (process_with_regex (normalize_text text))) ∧
    (∀ text : List Char,
      process_text false false none text =
        some (process_with_regex (normalize_text text))) := by
  constructor
  · intro text pl h
    simp [process_text, process_with_transformers, h]
  · intro text
    simp [process_text]

/-- C8 witness: a pipeline that always raises degrades to the regex
result on a concrete document. -/
theorem C8_witness :
    process_text false true (some fun _ => .error ()) degradeText =
      some (process_with_regex (normalize_text degradeText)) :=
  C8_degrade.1 degradeText _ rfl

/-! ### List lemmas for merge-style updates -/

/-- Filtering is blind to an update that preserves the predicate. -/
theorem length_filter_map_of_preserve {α : Type} (p : α → Bool) (g : α → α)
    (h : ∀ x, p (g x) = p x) :
    ∀ xs : List α, ((xs.map g).filter p).length = (xs.filter p).length := by
  intro xs
  induction xs with
  | nil => rfl
  | cons a t ih =>
    simp only [List.map_cons, List.filter_cons, h a]
    split <;> simp [ih]

/-- `any` is blind to an update that preserves the predicate. -/
theorem any_map_of_preserve {α : Type} (p : α → Bool) (g : α → α)
    (h : ∀ x, p (g x) = p x) :
    ∀ xs : List α, (xs.map g).any p = xs.any p := by
  intro xs
  induction xs with
  | nil => rfl
  | cons a t ih => simp [h a, ih]

/-- Mapping a projection is blind to an update that preserves it. -/
theorem map_map_of_preserve {α β : Type} (f : α → β) (g : α → α)
    (h : ∀ x, f (g x) = f x) (xs : List α) :
    (xs.map g).map f = xs.map f := by
  rw [List.map_map]
  exact List.map_congr_left fun a _ => h a

/-! ### The shape of one entity upsert -/

/-- `_get_node_label` takes one of six values. -/
theorem get_node_label_cases (s : String) :
    get_node_label s = "Person" ∨ get_node_label s = "Organization" ∨
    get_node_label s = "Location" ∨ get_node_label s = "Date" ∨
    get_node_label s = "LegalTerm" ∨ get_node_label s = "Entity" := by
  unfold get_node_label
  split_ifs <;> simp

/-- Every branch's property update leaves the node's identity (label
and key) alone. -/
theorem updFor_id (e : BEntity) (n : ENode) :
    (updFor e n).label = n.label ∧
      (updFor e n).normalized_key = n.normalized_key := by
  rcases get_node_label_cases e.label with h | h | h | h | h | h <;>
    simp [updFor, updDate, updNamed, updEntity, h]

/-- The created node carries the effective label and the resolution
key. -/
theorem mkFor_id (e : BEntity) :
    (mkFor e).label = effLabel e.label ∧
      (mkFor e).normalized_key = entityKey e := by
  rcases get_node_label_cases e.label with h | h | h | h | h | h <;>
    simp [mkFor, effLabel, h]

/-- The matched-node test is blind to every branch's update. -/
theorem updFor_eMatches (e : BEntity) (l : String) (k : List Char)
    (n : ENode) : eMatches l k (updFor e n) = eMatches l k n := by
  unfold eMatches
  rw [(updFor_id e n).1, (updFor_id e n).2]

/-- `create_or_update_node` with a succeeding store is exactly a merge
keyed by the effective label and the resolution key. -/
theorem cou_eq (e : BEntity) (st : GState) :
    createOrUpdateNodeOk e st =
      mergeE (effLabel e.label) (entityKey e) (updFor e) (mkFor e) st := by
  rcases get_node_label_cases e.label with h | h | h | h | h | h <;>
    simp [createOrUpdateNodeOk, create_or_update_node, runStep, effLabel,
      updFor, mkFor, entityKey, h]

/-- The two branches of a merge, written with `hasE`. -/
theorem mergeE_eq (l : String) (k : List Char) (upd : ENode → ENode)
    (mk : ENode) (st : GState) :
    mergeE l k upd mk st =
      (if hasE st l k then
        { st with enodes :=
            st.enodes.map fun n => if eMatches l k n then upd n else n }
       else { st with enodes := st.enodes ++ [mk] }) := rfl

/-- A merge never touches documents, relationships or mention edges. -/
theorem mergeE_others (l : String) (k : List Char) (upd : ENode → ENode)
    (mk : ENode) (st : GState) :
    (mergeE l k upd mk st).docs = st.docs ∧
      (mergeE l k upd mk st).rels = st.rels ∧
      (mergeE l k upd mk st).medges = st.medges := by
  rw [mergeE_eq]
  by_cases h : hasE st l k
  · rw [if_pos h]
    exact ⟨rfl, rfl, rfl⟩
  · rw [if_neg h]
    exact ⟨rfl, rfl, rfl⟩

/-- The label sequence after a merge: unchanged when a node matched,
extended by the created node's label otherwise. -/
theorem mergeE_labels (l : String) (k : List Char) (upd : ENode → ENode)
    (mk : ENode) (st : GState)
    (hu : ∀ n, (upd n).label = n.label) :
    (mergeE l k upd mk st).enodes.map ENode.label =
      (if hasE st l k then st.enodes.map ENode.label
       else st.enodes.map ENode.label ++ [mk.label]) := by
  rw [mergeE_eq]
  by_cases h : hasE st l k
  · rw [if_pos h, if_pos h]
    exact map_map_of_preserve _ _
      (fun n => by by_cases hn : eMatches l k n <;> simp [hn, hu]) _
  · rw [if_neg h, if_neg h]
    simp

/-- Node count at the merge target: unchanged when a node matched,
one more otherwise. -/
theorem mergeE_countE_target (l : String) (k : List Char)
    (upd : ENode → ENode) (mk : ENode) (st : GState)
    (hu : ∀ n, eMatches l k (upd n) = eMatches l k n)
    (hml : mk.label = l) (hmk : mk.normalized_key = k) :
    countE (mergeE l k upd mk st) l k =
      (if hasE st l k then countE st l k else countE st l k + 1) := by
  rw [mergeE_eq]
  by_cases h : hasE st l k
  · rw [if_pos h, if_pos h]
    exact length_filter_map_of_preserve _ _
      (fun n => by by_cases hn : eMatches l k n <;> simp [hn, hu]) _
  · have hmkm : eMatches l k mk = true := by simp [eMatches, hml, hmk]
    rw [if_neg h, if_neg h]
    simp only [countE]
    simp [List.filter_append, hmkm]

/-- Node count away from the merge target is untouched. -/
theorem mergeE_countE_other (l : String) (k : List Char)
    (upd : ENode → ENode) (mk : ENode) (st : GState)
    (hu : ∀ n l' k', eMatches l' k' (upd n) = eMatches l' k' n)
    (hml : mk.label = l) (hmk : mk.normalized_key = k)
    (l' : String) (k' : List Char) (hne : ¬(l' = l ∧ k' = k)) :
    countE (mergeE l k upd mk st) l' k' = countE st l' k' := by
  rw [mergeE_eq]
  by_cases h : hasE st l k
  · rw [if_pos h]
    exact length_filter_map_of_preserve _ _
      (fun n => by by_cases hn : eMatches l k n <;> simp [hn, hu]) _
  · have hmkm : eMatches l' k' mk = false := by
      simp only [eMatches, hml, hmk]
      rcases not_and_or.mp hne with h' | h'
      · have h'' : ¬(l = l') := fun hc => h' hc.symm
        simp [h'']
      · have h'' : ¬(k = k') := fun hc => h' hc.symm
        simp [h'']
    rw [if_neg h]
    simp only [countE]
    simp [List.filter_append, hmkm]

/-- The merge target is present afterwards. -/
theorem mergeE_hasE_target (l : String) (k : List Char)
    (upd : ENode → ENode) (mk : ENode) (st : GState)
    (hu : ∀ n, eMatches l k (upd n) = eMatches l k n)
    (hml : mk.label = l) (hmk : mk.normalized_key = k) :
    hasE (mergeE l k upd mk st) l k = true := by
  rw [mergeE_eq]
  by_cases h : hasE st l k
  · rw [if_pos h]
    show (st.enodes.map fun n =>
        if eMatches l k n then upd n else n).any (eMatches l k) = true
    rw [any_map_of_preserve _ _
      (fun n => by by_cases hn : eMatches l k n <;> simp [hn, hu])]
    exact h
  · have hmkm : eMatches l k mk = true := by simp [eMatches, hml, hmk]
    rw [if_neg h]
    show (st.enodes ++ [mk]).any (eMatches l k) = true
    simp [hmkm]

/-- When the merge target matched, node presence is preserved at every
identity. -/
theorem mergeE_hasE_of_matched (l : String) (k : List Char)
    (upd : ENode → ENode) (mk : ENode) (st : GState)
    (hu : ∀ n l' k', eMatches l' k' (upd n) = eMatches l' k' n)
    (hpre : hasE st l k = true) (l' : String) (k' : List Char) :
    hasE (mergeE l k upd mk st) l' k' = hasE st l' k' := by
  rw [mergeE_eq]
  rw [if_pos hpre]
  show (st.enodes.map fun n =>
      if eMatches l k n then upd n else n).any (eMatches l' k') =
    hasE st l' k'
  exact any_map_of_preserve _ _
    (fun n => by by_cases hn : eMatches l k n <;> simp [hn, hu]) _

/-- Node presence never decreases across a merge. -/
theorem mergeE_hasE_mono (l : String) (k : List Char)
    (upd : ENode → ENode) (mk : ENode) (st : GState)
    (hu : ∀ n l' k', eMatches l' k' (upd n) = eMatches l' k' n)
    (l' : String) (k' : List Char) (h : hasE st l' k' = true) :
    hasE (mergeE l k upd mk st) l' k' = true := by
  rw [mergeE_eq]
  by_cases hp : hasE st l k
  · rw [if_pos hp]
    show (st.enodes.map fun n =>
        if eMatches l k n then upd n else n).any (eMatches l' k') = true
    rw [any_map_of_preserve _ _
      (fun n => by by_cases hn : eMatches l k n <;> simp [hn, hu])]
    exact h
  · rw [if_neg hp]
    show (st.enodes ++ [mk]).any (eMatches l' k') = true
    have h' : st.enodes.any (eMatches l' k') = true := h
    simp [h']

/-- A node the merge key does not match is carried over verbatim. -/
theorem mergeE_mem_untouched (l : String) (k : List Char)
    (upd : ENode → ENode) (mk : ENode) (st : GState) (n : ENode)
    (hn : n ∈ st.enodes) (hnm : eMatches l k n = false) :
    n ∈ (mergeE l k upd mk st).enodes := by
  rw [mergeE_eq]
  by_cases h : hasE st l k
  · rw [if_pos h]
    exact List.mem_map.mpr ⟨n, hn, by simp [hnm]⟩
  · rw [if_neg h]
    exact List.mem_append_left _ hn

/-- A node the merge key matches is carried over updated. -/
theorem mergeE_mem_matched (l : String) (k : List Char)
    (upd : ENode → ENode) (mk : ENode) (st : GState) (n : ENode)
    (hn : n ∈ st.enodes) (hnm : eMatches l k n = true) :
    upd n ∈ (mergeE l k upd mk st).enodes := by
  have h : hasE st l k = true := List.any_eq_true.mpr ⟨n, hn, hnm⟩
  rw [mergeE_eq]
  rw [if_pos h]
  exact List.mem_map.mpr ⟨n, hn, by simp [hnm]⟩

/-- An unmatched merge appends exactly the created node. -/
theorem mergeE_append (l : String) (k : List Char) (upd : ENode → ENode)
    (mk : ENode) (st : GState) (h : hasE st l k = false) :
    (mergeE l k upd mk st).enodes = st.enodes ++ [mk] := by
  rw [mergeE_eq]
  rw [if_neg (by simp [h])]

/-- A matched merge maps the node list (same length). -/
theorem mergeE_length_matched (l : String) (k : List Char)
    (upd : ENode → ENode) (mk : ENode) (st : GState)
    (h : hasE st l k = true) :
    (mergeE l k upd mk st).enodes.length = st.enodes.length := by
  rw [mergeE_eq]
  rw [if_pos h]
  exact List.length_map _ _

/-! ### The other write operations leave entity nodes alone -/

/-- Absence of the merge target means zero matching nodes. -/
theorem hasE_false_countE (st : GState) (l : String) (k : List Char)
    (h : hasE st l k = false) : countE st l k = 0 := by
  unfold hasE at h
  unfold countE
  rw [List.length_eq_zero, List.filter_eq_nil_iff]
  intro a ha hpa
  have htrue : st.enodes.any (eMatches l k) = true :=
    List.any_eq_true.mpr ⟨a, ha, hpa⟩
  rw [h] at htrue
  exact Bool.false_ne_true htrue

/-- `create_document_node` with a succeeding store merges the document. -/
theorem cdnOk_state (d : PyDoc) (st : GState) :
    (createDocumentNodeOk d st).1 = mergeDoc d st := rfl

/-- A document merge never touches the other stored collections. -/
theorem mergeDoc_others (d : PyDoc) (st : GState) :
    (mergeDoc d st).enodes = st.enodes ∧ (mergeDoc d st).rels = st.rels ∧
      (mergeDoc d st).medges = st.medges := by
  unfold mergeDoc
  by_cases h : st.docs.any (docMatches d.url)
  · rw [if_pos h]; exact ⟨rfl, rfl, rfl⟩
  · rw [if_neg h]; exact ⟨rfl, rfl, rfl⟩

/-- The three outcomes of `create_relationship` with a succeeding
store: no endpoint pair, strengthen an existing edge, or create one. -/
theorem crOk_eq (e1 e2 : BEntity) (rt : String) (url : Option (List Char))
    (st : GState) :
    createRelationshipOk e1 e2 rt url st =
      (if countE st (get_node_label e1.label) (entityKey e1) *
          countE st (get_node_label e2.label) (entityKey e2) = 0 then st
       else if (st.rels.any (relMatches (get_node_label e1.label)
          (entityKey e1) (get_node_label e2.label) (entityKey e2) rt)) then
         { st with rels := st.rels.map fun r =>
             if (relMatches (get_node_label e1.label) (entityKey e1)
                (get_node_label e2.label) (entityKey e2) rt r) then
               { r with strength := r.strength + 1, document_url := url }
             else r }
       else { st with rels := st.rels ++
           [⟨get_node_label e1.label, entityKey e1, get_node_label e2.label,
             entityKey e2, rt, 1, url⟩] }) := by
  by_cases h1 : countE st (get_node_label e1.label) (entityKey e1) *
      countE st (get_node_label e2.label) (entityKey e2) = 0
  · simp only [createRelationshipOk, create_relationship, runStep,
      List.headD_nil, List.tail_nil, h1, if_true]
    rfl
  · by_cases h2 : st.rels.any (relMatches (get_node_label e1.label)
        (entityKey e1) (get_node_label e2.label) (entityKey e2) rt)
    · simp only [createRelationshipOk, create_relationship, runStep,
        List.headD_nil, List.tail_nil, h1, h2, if_true, if_false]
      rfl
    · simp only [createRelationshipOk, create_relationship, runStep,
        List.headD_nil, List.tail_nil, h1, h2, if_true, if_false]
      rfl

/-- A relationship upsert never touches nodes, documents or mention
edges. -/
theorem crOk_others (e1 e2 : BEntity) (rt : String)
    (url : Option (List Char)) (st : GState) :
    (createRelationshipOk e1 e2 rt url st).enodes = st.enodes ∧
      (createRelationshipOk e1 e2 rt url st).docs = st.docs ∧
      (createRelationshipOk e1 e2 rt url st).medges = st.medges := by
  rw [crOk_eq]
  split_ifs <;> exact ⟨rfl, rfl, rfl⟩

/-- One linking step never touches nodes, documents or entity
relationships. -/
theorem linkOne_others (e : BEntity) (url : List Char) (st : GState) :
    (linkOne e url st).enodes = st.enodes ∧
      (linkOne e url st).docs = st.docs ∧
      (linkOne e url st).rels = st.rels := by
  simp only [linkOne]
  split_ifs <;> exact ⟨rfl, rfl, rfl⟩

/-- The linking loop with a succeeding store is a fold of single
links. -/
theorem linkOk_eq_foldl (url : List Char) :
    ∀ (es : List BEntity) (st : GState),
      linkEntitiesOk es url st = es.foldl (fun a e => linkOne e url a) st := by
  intro es
  induction es with
  | nil => intro st; rfl
  | cons e rest ih =>
    intro st
    show linkEntitiesOk rest url (linkOne e url st) = _
    rw [List.foldl_cons]
    exact ih (linkOne e url st)

/-- A projection preserved by each fold step is preserved by the
fold. -/
theorem foldl_proj_eq {α β γ : Type} (f : α → γ → α) (proj : α → β)
    (h : ∀ a c, proj (f a c) = proj a) :
    ∀ (l : List γ) (a : α), proj (l.foldl f a) = proj a := by
  intro l
  induction l with
  | nil => intro a; rfl
  | cons c rest ih =>
    intro a
    rw [List.foldl_cons, ih, h]

/-- The linking loop leaves entity nodes untouched. -/
theorem linkOk_enodes (es : List BEntity) (url : List Char) (st : GState) :
    (linkEntitiesOk es url st).enodes = st.enodes := by
  rw [linkOk_eq_foldl]
  exact foldl_proj_eq _ GState.enodes (fun a c => (linkOne_others c url a).1)
    es st

/-! ### C1: node identity in the store -/

/-- `countE` only looks at the entity-node list. -/
theorem countE_congr (a b : GState) (h : a.enodes = b.enodes)
    (l : String) (k : List Char) : countE a l k = countE b l k := by
  unfold countE
  rw [h]

/-- Each write preserves "at most one node per (label, key)". -/
theorem applyOp_unique (st : GState) (op : GOp)
    (h : ∀ l k, countE st l k ≤ 1) :
    ∀ l k, countE (applyOp st op) l k ≤ 1 := by
  intro l k
  cases op with
  | doc d =>
    have he : (applyOp st (.doc d)).enodes = st.enodes :=
      (mergeDoc_others d st).1
    rw [countE_congr _ st he]
    exact h l k
  | node e =>
    rw [show applyOp st (.node e) = createOrUpdateNodeOk e st from rfl,
      cou_eq]
    by_cases hx : l = effLabel e.label ∧ k = entityKey e
    · rcases hx with ⟨rfl, rfl⟩
      rw [mergeE_countE_target _ _ _ _ _
        (fun n => updFor_eMatches e _ _ n) (mkFor_id e).1 (mkFor_id e).2]
      by_cases hp : hasE st (effLabel e.label) (entityKey e)
      · rw [if_pos hp]; exact h _ _
      · rw [if_neg hp]
        rw [hasE_false_countE st _ _ (by simpa using hp)]
    · rw [mergeE_countE_other _ _ _ _ _
        (fun n l' k' => updFor_eMatches e _ _ n) (mkFor_id e).1
        (mkFor_id e).2 l k hx]
      exact h l k
  | rel e1 e2 rt url =>
    have he : (applyOp st (.rel e1 e2 rt url)).enodes = st.enodes :=
      (crOk_others e1 e2 rt url st).1
    rw [countE_congr _ st he]
    exact h l k
  | link es u =>
    have he : (applyOp st (.link es u)).enodes = st.enodes :=
      linkOk_enodes es u st
    rw [countE_congr _ st he]
    exact h l k

/-- C1 (amended): in every store reachable from the empty store by the
builder's write operations, at most one entity node exists per
(effective node label, normalized key) pair — the merge key is the pair,
not the key alone. -/
theorem C1_amended :
    ∀ (ops : List GOp) (l : String) (k : List Char),
      countE (applyOps ops emptyG) l k ≤ 1 := by
  have main : ∀ (ops : List GOp) (st : GState),
      (∀ l k, countE st l k ≤ 1) →
      ∀ l k, countE (applyOps ops st) l k ≤ 1 := by
    intro ops
    induction ops with
    | nil => intro st h; exact h
    | cons op rest ih =>
      intro st h
      exact ih _ (applyOp_unique st op h)
  intro ops l k
  exact main ops emptyG (fun l' k' => by simp [countE, emptyG]) l k

/-- C1 (counterexample): two upserts with the same normalized key but
different kinds (Person "Bursa", Location "Bursa") leave two canonical
nodes with that key in the graph — the key alone is not the identity
criterion. -/
theorem C1_counterexample :
    entityKey bursaPerson = entityKey bursaLocation ∧
    ¬(((createOrUpdateNodeOk bursaLocation
        (createOrUpdateNodeOk bursaPerson emptyG)).enodes.filter
          (fun n => n.normalized_key = "bursa".toList)).length ≤ 1) :=
  ⟨by decide, by decide⟩

/-! ### C5: display names are first-seen-wins except for dates -/

/-- C5 (amended): an upsert whose effective label is not `Date` never
changes a stored display name — every node that already carries a name
keeps it verbatim — while a `Date` upsert overwrites the matched node's
displayed value with the incoming name (last write wins). -/
theorem C5_amended (e : BEntity) (st : GState) :
    (effLabel e.label ≠ "Date" →
      ∀ n ∈ st.enodes, ∀ v, n.name = some v →
        ∃ n' ∈ (createOrUpdateNodeOk e st).enodes,
          n'.label = n.label ∧ n'.normalized_key = n.normalized_key ∧
          n'.name = some v) ∧
    (effLabel e.label = "Date" →
      ∀ n ∈ st.enodes, eMatches "Date" (entityKey e) n = true →
        ∃ n' ∈ (createOrUpdateNodeOk e st).enodes,
          n'.label = n.label ∧ n'.normalized_key = n.normalized_key ∧
          n'.value = some (entityName e)) := by
  constructor
  · intro hD n hn v hv
    rw [cou_eq]
    by_cases hm : eMatches (effLabel e.label) (entityKey e) n
    · refine ⟨updFor e n, mergeE_mem_matched _ _ _ _ _ _ hn hm,
        (updFor_id e n).1, (updFor_id e n).2, ?_⟩
      have hnl : get_node_label e.label ≠ "Date" := by
        intro hc
        exact hD (by simp [effLabel, hc])
      rcases get_node_label_cases e.label with h | h | h | h | h | h <;>
        first
          | exact absurd h hnl
          | simp [updFor, updNamed, updEntity, h, hv]
    · exact ⟨n, mergeE_mem_untouched _ _ _ _ _ _ hn (by simpa using hm),
        rfl, rfl, hv⟩
  · intro hD n hn hm
    have hDl : get_node_label e.label = "Date" := by
      rcases get_node_label_cases e.label with h | h | h | h | h | h <;>
        first
          | exact h
          | simp [effLabel, h] at hD
    rw [cou_eq]
    have hm' : eMatches (effLabel e.label) (entityKey e) n = true := by
      rw [hD]; exact hm
    refine ⟨updFor e n, mergeE_mem_matched _ _ _ _ _ _ hn hm',
      (updFor_id e n).1, (updFor_id e n).2, ?_⟩
    simp [updFor, updDate, hDl]

/-- C5 witness: the Person name "BURSA" set by the first upsert survives
a second upsert spelt "Bursa"; the Date value is overwritten by the
second upsert of the same key. -/
theorem C5_witness :
    (∃ n' ∈ (createOrUpdateNodeOk bursaPerson
        (createOrUpdateNodeOk personUpper emptyG)).enodes,
      n'.label = "Person" ∧ n'.normalized_key = "bursa".toList ∧
        n'.name = some "BURSA".toList) ∧
    (∃ n' ∈ (createOrUpdateNodeOk dateTitle
        (createOrUpdateNodeOk dateUpper emptyG)).enodes,
      n'.label = "Date" ∧ n'.normalized_key = "15 ocak 2024".toList ∧
        n'.value = some (entityName dateTitle)) := by
  constructor
  · exact (C5_amended bursaPerson (createOrUpdateNodeOk personUpper emptyG)).1
      (by decide)
      ⟨"Person", "bursa".toList, some "BURSA".toList, none, none, 1⟩
      (by decide) "BURSA".toList (by decide)
  · exact (C5_amended dateTitle (createOrUpdateNodeOk dateUpper emptyG)).2
      (by decide)
      ⟨"Date", "15 ocak 2024".toList, none, some "15 OCAK 2024".toList,
       none, 1⟩
      (by decide) (by decide)

/-- C5 (counterexample): for the Date kind the displayed value is not
first-seen-wins — upserting "15 OCAK 2024" and then "15 Ocak 2024"
(same key) leaves the node's value as the second spelling. -/
theorem C5_counterexample :
    entityKey dateUpper = entityKey dateTitle ∧
    (createOrUpdateNodeOk dateUpper emptyG).enodes.map ENode.value =
      [some "15 OCAK 2024".toList] ∧
    (createOrUpdateNodeOk dateTitle
        (createOrUpdateNodeOk dateUpper emptyG)).enodes.map ENode.value =
      [some "15 Ocak 2024".toList] :=
  ⟨by decide, by decide, by decide⟩

/-! ### C6: resolution is exact; fuzzy flags are never consulted -/

/-- C6 (amended): the configuration enables fuzzy matching by default
with threshold 90, but no resolution code consults these flags —
`create_or_update_node` resolves exactly: an upsert whose (effective
label, key) pair is absent appends a fresh node (never merging into a
similar or different-kind key), a present pair is updated in place, and
every node with a different pair is carried over verbatim. -/
theorem C6_amended (e : BEntity) (st : GState) :
    ENABLE_FUZZY_MATCH = true ∧ FUZZY_THRESHOLD = 90 ∧
    (hasE st (effLabel e.label) (entityKey e) = false →
      (createOrUpdateNodeOk e st).enodes = st.enodes ++ [mkFor e]) ∧
    (hasE st (effLabel e.label) (entityKey e) = true →
      (createOrUpdateNodeOk e st).enodes.length = st.enodes.length) ∧
    (∀ n ∈ st.enodes, eMatches (effLabel e.label) (entityKey e) n = false →
      n ∈ (createOrUpdateNodeOk e st).enodes) := by
  refine ⟨by decide, rfl, ?_, ?_, ?_⟩
  · intro h
    rw [cou_eq]
    exact mergeE_append _ _ _ _ _ h
  · intro h
    rw [cou_eq]
    exact mergeE_length_matched _ _ _ _ _ h
  · intro n hn hnm
    rw [cou_eq]
    exact mergeE_mem_untouched _ _ _ _ _ _ hn hnm

/-- C6 witness: the near-duplicate organization key mints a fresh node
and leaves the existing organization node untouched. -/
theorem C6_witness :
    (createOrUpdateNodeOk orgBaroTypo
        (createOrUpdateNodeOk orgBaro emptyG)).enodes =
      (createOrUpdateNodeOk orgBaro emptyG).enodes ++ [mkFor orgBaroTypo] ∧
    (⟨"Organization", "bursa barosu".toList, some "Bursa Barosu".toList,
        none, none, 1⟩ : ENode) ∈
      (createOrUpdateNodeOk orgBaroTypo
        (createOrUpdateNodeOk orgBaro emptyG)).enodes := by
  constructor
  · exact (C6_amended orgBaroTypo
      (createOrUpdateNodeOk orgBaro emptyG)).2.2.1 (by decide)
  · exact (C6_amended orgBaroTypo
      (createOrUpdateNodeOk orgBaro emptyG)).2.2.2.2
      ⟨"Organization", "bursa barosu".toList, some "Bursa Barosu".toList,
       none, none, 1⟩ (by decide) (by decide)

/-- C6 (counterexample): with the default configuration (fuzzy enabled,
threshold 90) and an existing same-kind canonical key whose similarity
score to the candidate key is 96 > 90, the upsert still mints a new
entity instead of resolving the mention to the existing key. -/
theorem C6_counterexample :
    ENABLE_FUZZY_MATCH = true ∧ FUZZY_THRESHOLD = 90 ∧
    entityKey orgBaro = "bursa barosu".toList ∧
    entityKey orgBaroTypo = "bursa barosuu".toList ∧
    orgBaroTypo.label = orgBaro.label ∧
    FUZZY_THRESHOLD < simRatio (entityKey orgBaroTypo) (entityKey orgBaro) ∧
    hasE (createOrUpdateNodeOk orgBaro emptyG) "Organization"
      "bursa barosu".toList = true ∧
    (createOrUpdateNodeOk orgBaroTypo
        (createOrUpdateNodeOk orgBaro emptyG)).enodes.length = 2 :=
  ⟨by decide, rfl, by decide, by decide, rfl, by decide, by decide, by decide⟩

/-! ### C2: document-level idempotence of ingestion

The lemmas below track, across the four stages of
`step4_build_graph`, that a second ingestion of the same document meets
only already-merged objects and therefore appends nothing. -/

/-- The two branches of a document merge, written with `hasDoc`. -/
theorem mergeDoc_eq (d : PyDoc) (st : GState) :
    mergeDoc d st =
      (if hasDoc st d.url then
        { st with docs := st.docs.map fun x =>
            if docMatches d.url x then
              { x with title := d.title, content := d.content,
                       content_length := d.content.length }
            else x }
       else { st with docs :=
          st.docs ++ [⟨d.url, d.title, d.content, d.content.length⟩] }) := rfl

/-- The document update of the merge preserves each document's URL. -/
theorem docUpd_matches (d : PyDoc) (u : List Char) (x : DocNode) :
    docMatches u (if docMatches d.url x then
      { x with title := d.title, content := d.content,
               content_length := d.content.length }
      else x) = docMatches u x := by
  by_cases h : docMatches d.url x
  · rw [if_pos h]
    simp [docMatches]
  · rw [if_neg h]

/-- Documents with any URL are counted the same after a matched
document merge; an unmatched merge adds one with the merged URL. -/
theorem mergeDoc_docCount (d : PyDoc) (st : GState) (u : List Char) :
    docCount (mergeDoc d st) u =
      (if hasDoc st d.url then docCount st u
       else docCount st u + (if docMatches u ⟨d.url, d.title, d.content,
          d.content.length⟩ then 1 else 0)) := by
  rw [mergeDoc_eq]
  by_cases h : hasDoc st d.url
  · rw [if_pos h, if_pos h]
    exact length_filter_map_of_preserve _ _ (docUpd_matches d u) _
  · rw [if_neg h, if_neg h]
    simp only [docCount, List.filter_append]
    by_cases hm : docMatches u (⟨d.url, d.title, d.content,
        d.content.length⟩ : DocNode) <;> simp [hm]

/-- Document count for the merged URL after the merge. -/
theorem mergeDoc_docCount_target (d : PyDoc) (st : GState) :
    docCount (mergeDoc d st) d.url =
      (if docCount st d.url = 0 then 1 else docCount st d.url) := by
  rw [mergeDoc_docCount]
  by_cases h : hasDoc st d.url
  · rw [if_pos h]
    have : docCount st d.url ≠ 0 := by
      simp only [hasDoc, List.any_eq_true] at h
      obtain ⟨x, hx, hm⟩ := h
      simp only [docCount, ne_eq, List.length_eq_zero,
        List.filter_eq_nil_iff]
      intro hc
      exact hc x hx hm
    rw [if_neg this]
  · rw [if_neg h]
    have h0 : docCount st d.url = 0 := by
      simp only [docCount, List.length_eq_zero, List.filter_eq_nil_iff]
      intro a ha hpa
      exact h (List.any_eq_true.mpr ⟨a, ha, hpa⟩)
    simp [h0, docMatches]

/-- Document list length after a merge. -/
theorem mergeDoc_docs_length (d : PyDoc) (st : GState) :
    (mergeDoc d st).docs.length =
      (if hasDoc st d.url then st.docs.length else st.docs.length + 1) := by
  rw [mergeDoc_eq]
  by_cases h : hasDoc st d.url
  · rw [if_pos h, if_pos h]
    exact List.length_map _ _
  · rw [if_neg h, if_neg h]
    simp

/-- A positive document count means the URL is present. -/
theorem docCount_pos_hasDoc (st : GState) (u : List Char)
    (h : docCount st u ≠ 0) : hasDoc st u = true := by
  simp only [docCount, ne_eq, List.length_eq_zero,
    List.filter_eq_nil_iff, not_forall] at h
  obtain ⟨x, hx, hm⟩ := h
  exact List.any_eq_true.mpr ⟨x, hx, by simpa using hm⟩

/-- The success bit of `create_document_node` with a succeeding store. -/
theorem cdnOk_bit (d : PyDoc) (st : GState) :
    (createDocumentNodeOk d st).2 =
      decide ((if docCount st d.url = 0 then 1 else docCount st d.url) = 1) :=
  rfl

/-- The entity-upsert fold never touches documents, relationships or
mention edges. -/
theorem ingestEntities_others (es : List BEntity) :
    ∀ st : GState,
      (ingestEntities es st).docs = st.docs ∧
      (ingestEntities es st).rels = st.rels ∧
      (ingestEntities es st).medges = st.medges := by
  induction es with
  | nil => intro st; exact ⟨rfl, rfl, rfl⟩
  | cons e rest ih =>
    intro st
    have hstep := mergeE_others (effLabel e.label) (entityKey e) (updFor e)
      (mkFor e) st
    rw [← cou_eq] at hstep
    have hrest := ih (createOrUpdateNodeOk e st)
    exact ⟨hrest.1.trans hstep.1, hrest.2.1.trans hstep.2.1,
      hrest.2.2.trans hstep.2.2⟩

/-- Node presence never decreases across the entity-upsert fold. -/
theorem ingestEntities_hasE_mono (es : List BEntity) :
    ∀ (st : GState) (l : String) (k : List Char),
      hasE st l k = true → hasE (ingestEntities es st) l k = true := by
  induction es with
  | nil => intro st l k h; exact h
  | cons e rest ih =>
    intro st l k h
    show hasE (ingestEntities rest (createOrUpdateNodeOk e st)) l k = true
    refine ih _ l k ?_
    rw [cou_eq]
    exact mergeE_hasE_mono _ _ _ _ _
      (fun n l' k' => updFor_eMatches e l' k' n) l k h

/-- After the entity-upsert fold every upserted entity's node is
present. -/
theorem ingestEntities_hasE (es : List BEntity) :
    ∀ st : GState, ∀ e ∈ es,
      hasE (ingestEntities es st) (effLabel e.label) (entityKey e) = true := by
  induction es with
  | nil => intro st e he; simp at he
  | cons e0 rest ih =>
    intro st e he
    rcases List.mem_cons.mp he with rfl | hm
    · show hasE (ingestEntities rest (createOrUpdateNodeOk e st))
        (effLabel e.label) (entityKey e) = true
      refine ingestEntities_hasE_mono rest _ _ _ ?_
      rw [cou_eq]
      exact mergeE_hasE_target _ _ _ _ _
        (fun n => updFor_eMatches e _ _ n) (mkFor_id e).1 (mkFor_id e).2
    · show hasE (ingestEntities rest (createOrUpdateNodeOk e0 st))
        (effLabel e.label) (entityKey e) = true
      exact ih _ e hm

/-- When every upserted entity is already present, the fold changes no
node labels, no node counts and no node presence. -/
theorem ingestEntities_shape (es : List BEntity) :
    ∀ st : GState,
      (∀ e ∈ es, hasE st (effLabel e.label) (entityKey e) = true) →
      (ingestEntities es st).enodes.map ENode.label =
          st.enodes.map ENode.label ∧
      (∀ l k, countE (ingestEntities es st) l k = countE st l k) ∧
      (∀ l k, hasE (ingestEntities es st) l k = hasE st l k) := by
  induction es with
  | nil => intro st _; exact ⟨rfl, fun l k => rfl, fun l k => rfl⟩
  | cons e rest ih =>
    intro st h
    have he := h e (List.mem_cons_self _ _)
    have hlab : (createOrUpdateNodeOk e st).enodes.map ENode.label =
        st.enodes.map ENode.label := by
      rw [cou_eq, mergeE_labels _ _ _ _ _ (fun n => (updFor_id e n).1),
        if_pos he]
    have hcnt : ∀ l k, countE (createOrUpdateNodeOk e st) l k =
        countE st l k := by
      intro l k
      rw [cou_eq]
      by_cases hx : l = effLabel e.label ∧ k = entityKey e
      · rcases hx with ⟨rfl, rfl⟩
        rw [mergeE_countE_target _ _ _ _ _
          (fun n => updFor_eMatches e _ _ n) (mkFor_id e).1 (mkFor_id e).2,
          if_pos he]
      · exact mergeE_countE_other _ _ _ _ _
          (fun n l' k' => updFor_eMatches e l' k' n) (mkFor_id e).1
          (mkFor_id e).2 l k hx
    have hhas : ∀ l k, hasE (createOrUpdateNodeOk e st) l k =
        hasE st l k := by
      intro l k
      rw [cou_eq]
      exact mergeE_hasE_of_matched _ _ _ _ _
        (fun n l' k' => updFor_eMatches e l' k' n) he l k
    have hrest := ih (createOrUpdateNodeOk e st)
      (fun e' he' => (hhas _ _).trans (h e' (List.mem_cons_of_mem _ he')))
    exact ⟨hrest.1.trans hlab,
      fun l k => (hrest.2.1 l k).trans (hcnt l k),
      fun l k => (hrest.2.2 l k).trans (hhas l k)⟩

/-- The two-level branch structure of one linking step. -/
theorem linkOne_eq (e : BEntity) (url : List Char) (st : GState) :
    linkOne e url st =
      (if (hasDoc st url &&
          hasE st (get_node_label e.label) (entityKey e)) then
        (if hasM st (get_node_label e.label) (entityKey e) url then
          { st with medges := st.medges.map fun m =>
              if mMatches (get_node_label e.label) (entityKey e) url m then
                { m with sentence := e.sentence }
              else m }
         else { st with medges := st.medges ++
             [⟨get_node_label e.label, entityKey e, url, e.sentence⟩] })
       else st) := rfl

/-- The sentence overwrite of an edge merge preserves the edge's
identity. -/
theorem mUpd_matches (el : String) (ek : List Char) (du : List Char)
    (el' : String) (ek' : List Char) (du' : List Char) (s : List Char)
    (m : MEdge) :
    mMatches el' ek' du' (if mMatches el ek du m then
        { m with sentence := s } else m) = mMatches el' ek' du' m := by
  by_cases h : mMatches el ek du m
  · rw [if_pos h]
    simp [mMatches]
  · rw [if_neg h]

/-- A linking step whose `MATCH` finds nothing does nothing. -/
theorem linkOne_noop (e : BEntity) (url : List Char) (st : GState)
    (h : (hasDoc st url &&
      hasE st (get_node_label e.label) (entityKey e)) = false) :
    linkOne e url st = st := by
  rw [linkOne_eq, if_neg (by simp [h])]

/-- A linking step that finds both endpoints and an existing edge keeps
every edge, pointwise identically keyed. -/
theorem linkOne_matched (e : BEntity) (url : List Char) (st : GState)
    (hc : (hasDoc st url &&
      hasE st (get_node_label e.label) (entityKey e)) = true)
    (hm : hasM st (get_node_label e.label) (entityKey e) url = true) :
    (linkOne e url st).medges.length = st.medges.length ∧
    (∀ el ek du, hasM (linkOne e url st) el ek du = hasM st el ek du) := by
  rw [linkOne_eq, if_pos hc, if_pos hm]
  refine ⟨List.length_map _ _, fun el ek du => ?_⟩
  exact any_map_of_preserve _ _ (mUpd_matches _ _ _ el ek du _) _

/-- A linking step that finds both endpoints stores the edge. -/
theorem linkOne_hasM_target (e : BEntity) (url : List Char) (st : GState)
    (hc : (hasDoc st url &&
      hasE st (get_node_label e.label) (entityKey e)) = true) :
    hasM (linkOne e url st) (get_node_label e.label) (entityKey e) url =
      true := by
  rw [linkOne_eq, if_pos hc]
  by_cases hm : hasM st (get_node_label e.label) (entityKey e) url
  · rw [if_pos hm]
    show (st.medges.map _).any _ = true
    rw [any_map_of_preserve _ _ (mUpd_matches _ _ _ _ _ _ _)]
    exact hm
  · rw [if_neg hm]
    show (st.medges ++ _).any _ = true
    simp [mMatches]

/-- Edge presence never decreases across a linking step. -/
theorem linkOne_hasM_mono (e : BEntity) (url : List Char) (st : GState)
    (el : String) (ek : List Char) (du : List Char)
    (h : hasM st el ek du = true) :
    hasM (linkOne e url st) el ek du = true := by
  rw [linkOne_eq]
  by_cases hc : (hasDoc st url &&
      hasE st (get_node_label e.label) (entityKey e)) = true
  · rw [if_pos hc]
    by_cases hm : hasM st (get_node_label e.label) (entityKey e) url
    · rw [if_pos hm]
      show (st.medges.map _).any _ = true
      rw [any_map_of_preserve _ _ (mUpd_matches _ _ _ el ek du _)]
      exact h
    · rw [if_neg hm]
      show (st.medges ++ _).any _ = true
      have h' : st.medges.any (mMatches el ek du) = true := h
      simp [h']
  · rw [if_neg hc]
    exact h

/-- The linking loop never touches nodes, documents or entity
relationships. -/
theorem linkOk_others (es : List BEntity) (url : List Char) (st : GState) :
    (linkEntitiesOk es url st).enodes = st.enodes ∧
      (linkEntitiesOk es url st).docs = st.docs ∧
      (linkEntitiesOk es url st).rels = st.rels := by
  rw [linkOk_eq_foldl]
  exact ⟨foldl_proj_eq _ GState.enodes
      (fun a c => (linkOne_others c url a).1) es st,
    foldl_proj_eq _ GState.docs
      (fun a c => (linkOne_others c url a).2.1) es st,
    foldl_proj_eq _ GState.rels
      (fun a c => (linkOne_others c url a).2.2) es st⟩

/-- Edge presence never decreases across the linking loop. -/
theorem linkFold_hasM_mono (url : List Char) (es : List BEntity) :
    ∀ (st : GState) (el : String) (ek : List Char) (du : List Char),
      hasM st el ek du = true →
      hasM (linkEntitiesOk es url st) el ek du = true := by
  induction es with
  | nil => intro st el ek du h; exact h
  | cons e rest ih =>
    intro st el ek du h
    show hasM (linkEntitiesOk rest url (linkOne e url st)) el ek du = true
    exact ih _ el ek du (linkOne_hasM_mono e url st el ek du h)

/-- When every link whose endpoints exist is already stored, the loop
keeps the edge count and every edge's presence unchanged. -/
theorem linkFold_shape (url : List Char) (es : List BEntity) :
    ∀ st : GState,
      (∀ e ∈ es, (hasDoc st url &&
          hasE st (get_node_label e.label) (entityKey e)) = true →
        hasM st (get_node_label e.label) (entityKey e) url = true) →
      (linkEntitiesOk es url st).medges.length = st.medges.length ∧
      (∀ el ek du, hasM (linkEntitiesOk es url st) el ek du =
        hasM st el ek du) := by
  induction es with
  | nil => intro st _; exact ⟨rfl, fun _ _ _ => rfl⟩
  | cons e rest ih =>
    intro st h
    show (linkEntitiesOk rest url (linkOne e url st)).medges.length =
        st.medges.length ∧
      (∀ el ek du, hasM (linkEntitiesOk rest url (linkOne e url st))
        el ek du = hasM st el ek du)
    by_cases hc : (hasDoc st url &&
        hasE st (get_node_label e.label) (entityKey e)) = true
    · have hm := h e (List.mem_cons_self _ _) hc
      have hstep := linkOne_matched e url st hc hm
      have hdoc : hasDoc (linkOne e url st) url = hasDoc st url := by
        unfold hasDoc
        rw [(linkOne_others e url st).2.1]
      have hhE : ∀ l k, hasE (linkOne e url st) l k = hasE st l k := by
        intro l k
        unfold hasE
        rw [(linkOne_others e url st).1]
      have hrest := ih (linkOne e url st) (fun e' he' hc' => by
        rw [hstep.2]
        refine h e' (List.mem_cons_of_mem _ he') ?_
        rw [← hdoc, ← hhE]
        exact hc')
      exact ⟨hrest.1.trans hstep.1,
        fun el ek du => (hrest.2 el ek du).trans (hstep.2 el ek du)⟩
    · rw [linkOne_noop e url st (by simpa using hc)]
      exact ih st (fun e' he' => h e' (List.mem_cons_of_mem _ he'))

/-- After the linking loop, every entity whose endpoints exist has its
edge stored. -/
theorem linkFold_establish (url : List Char) (es : List BEntity) :
    ∀ st : GState, ∀ e ∈ es,
      (hasDoc st url &&
        hasE st (get_node_label e.label) (entityKey e)) = true →
      hasM (linkEntitiesOk es url st) (get_node_label e.label)
        (entityKey e) url = true := by
  induction es with
  | nil => intro st e he; simp at he
  | cons e0 rest ih =>
    intro st e he hc
    rcases List.mem_cons.mp he with rfl | hm
    · show hasM (linkEntitiesOk rest url (linkOne e url st)) _ _ _ = true
      exact linkFold_hasM_mono url rest _ _ _ _
        (linkOne_hasM_target e url st hc)
    · show hasM (linkEntitiesOk rest url (linkOne e0 url st)) _ _ _ = true
      refine ih _ e hm ?_
      have hdoc : hasDoc (linkOne e0 url st) url = hasDoc st url := by
        unfold hasDoc
        rw [(linkOne_others e0 url st).2.1]
      have hhE : ∀ l k, hasE (linkOne e0 url st) l k = hasE st l k := by
        intro l k
        unfold hasE
        rw [(linkOne_others e0 url st).1]
      rw [hdoc, hhE]
      exact hc

/-- The strength/provenance update of a relationship merge preserves
the edge's identity. -/
theorem rUpd_matches (fl : String) (fk : List Char) (tl : String)
    (tk : List Char) (rt : String) (url : Option (List Char))
    (fl' : String) (fk' : List Char) (tl' : String) (tk' : List Char)
    (rt' : String) (r : ERel) :
    relMatches fl' fk' tl' tk' rt' (if (relMatches fl fk tl tk rt r) then
        { r with strength := r.strength + 1, document_url := url }
      else r) = relMatches fl' fk' tl' tk' rt' r := by
  by_cases h : relMatches fl fk tl tk rt r
  · rw [if_pos h]
    simp [relMatches]
  · rw [if_neg h]

/-- A relationship upsert whose edge is already stored (or whose
endpoints are missing) keeps the edge count and every edge's presence
unchanged. -/
theorem crOk_step (r : PyRel) (url : Option (List Char)) (st : GState)
    (h : relRows r st ≠ 0 → relStored r st = true) :
    (createRelationshipOk (relE1 r) (relE2 r) r.relation_type url
      st).rels.length = st.rels.length ∧
    (∀ fl fk tl tk rt, hasRel (createRelationshipOk (relE1 r) (relE2 r)
        r.relation_type url st) fl fk tl tk rt =
      hasRel st fl fk tl tk rt) := by
  rw [crOk_eq]
  by_cases h0 : relRows r st = 0
  · have h0' : countE st (get_node_label (relE1 r).label)
        (entityKey (relE1 r)) * countE st (get_node_label (relE2 r).label)
        (entityKey (relE2 r)) = 0 := h0
    rw [if_pos h0']
    exact ⟨rfl, fun _ _ _ _ _ => rfl⟩
  · have hs : st.rels.any (relMatches (get_node_label (relE1 r).label)
        (entityKey (relE1 r)) (get_node_label (relE2 r).label)
        (entityKey (relE2 r)) r.relation_type) = true := h h0
    have h0' : ¬(countE st (get_node_label (relE1 r).label)
        (entityKey (relE1 r)) * countE st (get_node_label (relE2 r).label)
        (entityKey (relE2 r)) = 0) := h0
    rw [if_neg h0', if_pos hs]
    refine ⟨List.length_map _ _, fun fl fk tl tk rt => ?_⟩
    show (st.rels.map _).any _ = _
    exact any_map_of_preserve _ _
      (rUpd_matches _ _ _ _ _ url fl fk tl tk rt) _

/-- A relationship upsert whose endpoints exist stores the edge. -/
theorem crOk_hasRel_target (r : PyRel) (url : Option (List Char))
    (st : GState) (h0 : relRows r st ≠ 0) :
    relStored r (createRelationshipOk (relE1 r) (relE2 r) r.relation_type
      url st) = true := by
  have h0' : ¬(countE st (get_node_label (relE1 r).label)
      (entityKey (relE1 r)) * countE st (get_node_label (relE2 r).label)
      (entityKey (relE2 r)) = 0) := h0
  rw [crOk_eq, if_neg h0']
  by_cases hs : st.rels.any (relMatches (get_node_label (relE1 r).label)
      (entityKey (relE1 r)) (get_node_label (relE2 r).label)
      (entityKey (relE2 r)) r.relation_type) = true
  · rw [if_pos hs]
    show (st.rels.map _).any _ = true
    rw [any_map_of_preserve _ _ (rUpd_matches _ _ _ _ _ url _ _ _ _ _)]
    exact hs
  · rw [if_neg hs]
    show (st.rels ++ _).any _ = true
    simp [relMatches]

/-- Edge presence never decreases across a relationship upsert. -/
theorem crOk_hasRel_mono (e1 e2 : BEntity) (rt0 : String)
    (url : Option (List Char)) (st : GState) (fl : String) (fk : List Char)
    (tl : String) (tk : List Char) (rt : String)
    (h : hasRel st fl fk tl tk rt = true) :
    hasRel (createRelationshipOk e1 e2 rt0 url st) fl fk tl tk rt =
      true := by
  rw [crOk_eq]
  by_cases h0 : countE st (get_node_label e1.label) (entityKey e1) *
      countE st (get_node_label e2.label) (entityKey e2) = 0
  · rw [if_pos h0]
    exact h
  · rw [if_neg h0]
    by_cases hs : st.rels.any (relMatches (get_node_label e1.label)
        (entityKey e1) (get_node_label e2.label) (entityKey e2) rt0) = true
    · rw [if_pos hs]
      show (st.rels.map _).any _ = true
      rw [any_map_of_preserve _ _ (rUpd_matches _ _ _ _ _ url fl fk tl tk rt)]
      exact h
    · rw [if_neg hs]
      show (st.rels ++ _).any _ = true
      have h' : st.rels.any (relMatches fl fk tl tk rt) = true := h
      simp [h']

/-- The relationship loop never touches nodes, documents or mention
edges. -/
theorem relFold_others (rs : List PyRel) (url : List Char) :
    ∀ st : GState,
      (ingestRels rs url st).enodes = st.enodes ∧
      (ingestRels rs url st).docs = st.docs ∧
      (ingestRels rs url st).medges = st.medges := by
  induction rs with
  | nil => intro st; exact ⟨rfl, rfl, rfl⟩
  | cons r rest ih =>
    intro st
    have hstep := crOk_others (relE1 r) (relE2 r) r.relation_type
      (some url) st
    have hrest := ih (createRelationshipOk (relE1 r) (relE2 r)
      r.relation_type (some url) st)
    exact ⟨hrest.1.trans hstep.1, hrest.2.1.trans hstep.2.1,
      hrest.2.2.trans hstep.2.2⟩

/-- Edge presence never decreases across the relationship loop. -/
theorem relFold_hasRel_mono (rs : List PyRel) (url : List Char) :
    ∀ (st : GState) (fl : String) (fk : List Char) (tl : String)
      (tk : List Char) (rt : String),
      hasRel st fl fk tl tk rt = true →
      hasRel (ingestRels rs url st) fl fk tl tk rt = true := by
  induction rs with
  | nil => intro st fl fk tl tk rt h; exact h
  | cons r rest ih =>
    intro st fl fk tl tk rt h
    show hasRel (ingestRels rest url (createRelationshipOk (relE1 r)
      (relE2 r) r.relation_type (some url) st)) fl fk tl tk rt = true
    exact ih _ fl fk tl tk rt
      (crOk_hasRel_mono _ _ _ _ st fl fk tl tk rt h)

/-- When every relationship whose endpoints exist is already stored,
the loop keeps the edge count and every edge's presence unchanged. -/
theorem relFold_shape (rs : List PyRel) (url : List Char) :
    ∀ st : GState,
      (∀ r ∈ rs, relRows r st ≠ 0 → relStored r st = true) →
      (ingestRels rs url st).rels.length = st.rels.length ∧
      (∀ fl fk tl tk rt, hasRel (ingestRels rs url st) fl fk tl tk rt =
        hasRel st fl fk tl tk rt) := by
  induction rs with
  | nil => intro st _; exact ⟨rfl, fun _ _ _ _ _ => rfl⟩
  | cons r rest ih =>
    intro st h
    have hstep := crOk_step r (some url) st (h r (List.mem_cons_self _ _))
    have hen : (createRelationshipOk (relE1 r) (relE2 r) r.relation_type
        (some url) st).enodes = st.enodes :=
      (crOk_others _ _ _ _ st).1
    have hrows : ∀ r' : PyRel, relRows r' (createRelationshipOk (relE1 r)
        (relE2 r) r.relation_type (some url) st) = relRows r' st := by
      intro r'
      unfold relRows
      rw [countE_congr _ st hen, countE_congr _ st hen]
    have hrest := ih (createRelationshipOk (relE1 r) (relE2 r)
        r.relation_type (some url) st) (fun r' hr' hne => by
      show hasRel _ _ _ _ _ _ = true
      rw [hstep.2]
      refine h r' (List.mem_cons_of_mem _ hr') ?_
      rw [← hrows r']
      exact hne)
    refine ⟨?_, ?_⟩
    · show (ingestRels rest url _).rels.length = st.rels.length
      exact hrest.1.trans hstep.1
    · intro fl fk tl tk rt
      show hasRel (ingestRels rest url _) fl fk tl tk rt = _
      exact (hrest.2 fl fk tl tk rt).trans (hstep.2 fl fk tl tk rt)

/-- After the relationship loop, every relationship whose endpoints
exist has its edge stored. -/
theorem relFold_establish (rs : List PyRel) (url : List Char) :
    ∀ st : GState, ∀ r ∈ rs, relRows r st ≠ 0 →
      relStored r (ingestRels rs url st) = true := by
  induction rs with
  | nil => intro st r hr; simp at hr
  | cons r0 rest ih =>
    intro st r hr hne
    rcases List.mem_cons.mp hr with rfl | hm
    · show relStored r (ingestRels rest url (createRelationshipOk
        (relE1 r) (relE2 r) r.relation_type (some url) st)) = true
      exact relFold_hasRel_mono rest url _ _ _ _ _ _
        (crOk_hasRel_target r (some url) st hne)
    · show relStored r (ingestRels rest url (createRelationshipOk
        (relE1 r0) (relE2 r0) r0.relation_type (some url) st)) = true
      refine ih _ r hm ?_
      have hen : (createRelationshipOk (relE1 r0) (relE2 r0)
          r0.relation_type (some url) st).enodes = st.enodes :=
        (crOk_others _ _ _ _ st).1
      unfold relRows
      rw [countE_congr _ st hen, countE_congr _ st hen]
      exact hne

/-! ### Assembling the two ingestion runs -/

/-- `hasE` only looks at the entity nodes. -/
theorem hasE_congr (a b : GState) (h : a.enodes = b.enodes) (l : String)
    (k : List Char) : hasE a l k = hasE b l k := by
  unfold hasE
  rw [h]

/-- `hasDoc` only looks at the documents. -/
theorem hasDoc_congr (a b : GState) (h : a.docs = b.docs) (u : List Char) :
    hasDoc a u = hasDoc b u := by
  unfold hasDoc
  rw [h]

/-- `docCount` only looks at the documents. -/
theorem docCount_congr (a b : GState) (h : a.docs = b.docs)
    (u : List Char) : docCount a u = docCount b u := by
  unfold docCount
  rw [h]

/-- `hasM` only looks at the mention edges. -/
theorem hasM_congr (a b : GState) (h : a.medges = b.medges) (el : String)
    (ek : List Char) (du : List Char) : hasM a el ek du = hasM b el ek du := by
  unfold hasM
  rw [h]

/-- `relStored` only looks at the relationships. -/
theorem relStored_congr (r : PyRel) (a b : GState) (h : a.rels = b.rels) :
    relStored r a = relStored r b := by
  unfold relStored hasRel
  rw [h]

/-- `relRows` only looks at the entity nodes. -/
theorem relRows_congr (r : PyRel) (a b : GState) (h : a.enodes = b.enodes) :
    relRows r a = relRows r b := by
  unfold relRows
  rw [countE_congr a b h, countE_congr a b h]

/-- The per-document ingestion, written as an explicit branch on the
document-merge success bit. -/
theorem ingestDocument_eq (d : PyDoc) (es : List BEntity) (rs : List PyRel)
    (st : GState) :
    ingestDocument d es rs st =
      (if (createDocumentNodeOk d st).2 = true then
        ingestRels rs d.url
          (if es = [] then ingestEntities es (mergeDoc d st)
           else linkEntitiesOk es d.url (ingestEntities es (mergeDoc d st)))
       else mergeDoc d st) := by
  unfold ingestDocument
  by_cases h : (createDocumentNodeOk d st).2 = true
  · rw [if_pos h]
    simp [h, cdnOk_state]
  · rw [if_neg h]
    have h' : (createDocumentNodeOk d st).2 = false := by
      simpa using h
    simp [h', cdnOk_state]

/-- Counting one node label through the label sequence. -/
theorem countLabel_eq_of_labels (a b : GState)
    (h : a.enodes.map ENode.label = b.enodes.map ENode.label) (l : String) :
    countLabel a l = countLabel b l := by
  have key : ∀ xs : List ENode, (xs.filter fun n => n.label = l).length =
      ((xs.map ENode.label).filter fun s => s = l).length := by
    intro xs
    induction xs with
    | nil => rfl
    | cons n tl ih =>
      by_cases hn : n.label = l <;>
        simp [List.filter_cons, hn, ih]
  unfold countLabel
  rw [key, key, h]

/-- Stores of the same shape report the same statistics. -/
theorem totals_of_SameShape (a b : GState) (h : SameShape a b) :
    total_nodes a = total_nodes b ∧
      total_relationships a = total_relationships b := by
  obtain ⟨hl, hd, hr, hm⟩ := h
  constructor
  · unfold total_nodes
    rw [countLabel_eq_of_labels a b hl, countLabel_eq_of_labels a b hl,
      countLabel_eq_of_labels a b hl, countLabel_eq_of_labels a b hl,
      countLabel_eq_of_labels a b hl, countLabel_eq_of_labels a b hl, hd]
  · unfold total_relationships
    rw [hr, hm]

/-- After a successful first ingestion of a document, every object the
ingestion merges is present: the document exactly once, every entity's
node, every link whose endpoints the link query can match, and every
relationship whose endpoints the relationship query can match. -/
theorem ingest_facts (d : PyDoc) (es : List BEntity) (rs : List PyRel)
    (st : GState) (hok : (createDocumentNodeOk d st).2 = true) :
    docCount (ingestDocument d es rs st) d.url = 1 ∧
    (∀ e ∈ es, hasE (ingestDocument d es rs st) (effLabel e.label)
      (entityKey e) = true) ∧
    (∀ e ∈ es, (hasDoc (ingestDocument d es rs st) d.url &&
        hasE (ingestDocument d es rs st) (get_node_label e.label)
          (entityKey e)) = true →
      hasM (ingestDocument d es rs st) (get_node_label e.label)
        (entityKey e) d.url = true) ∧
    (∀ r ∈ rs, relRows r (ingestDocument d es rs st) ≠ 0 →
      relStored r (ingestDocument d es rs st) = true) := by
  rw [ingestDocument_eq, if_pos hok]
  set st1 := mergeDoc d st with hst1
  set st2 := ingestEntities es st1 with hst2
  set st3 := (if es = [] then st2 else linkEntitiesOk es d.url st2)
    with hst3
  have hen3 : st3.enodes = st2.enodes := by
    rw [hst3]
    by_cases h0 : es = []
    · rw [if_pos h0]
    · rw [if_neg h0]
      exact (linkOk_others es d.url st2).1
  have hdocs2 : st2.docs = st1.docs := by
    rw [hst2]
    exact (ingestEntities_others es st1).1
  have hdocs3 : st3.docs = st2.docs := by
    rw [hst3]
    by_cases h0 : es = []
    · rw [if_pos h0]
    · rw [if_neg h0]
      exact (linkOk_others es d.url st2).2.1
  have hoth4 := relFold_others rs d.url st3
  have hok' := hok
  rw [cdnOk_bit] at hok'
  have hc1 : docCount st1 d.url = 1 := by
    rw [hst1, mergeDoc_docCount_target]
    exact of_decide_eq_true hok'
  refine ⟨?_, ?_, ?_, ?_⟩
  · rw [docCount_congr _ st3 hoth4.2.1, docCount_congr st3 st2 hdocs3,
      docCount_congr st2 st1 hdocs2]
    exact hc1
  · intro e he
    rw [hasE_congr _ st3 hoth4.1, hasE_congr st3 st2 hen3, hst2]
    exact ingestEntities_hasE es st1 e he
  · intro e he hcond
    have hHD : hasDoc (ingestRels rs d.url st3) d.url = hasDoc st2 d.url := by
      rw [hasDoc_congr _ st3 hoth4.2.1, hasDoc_congr st3 st2 hdocs3]
    have hHE : hasE (ingestRels rs d.url st3) (get_node_label e.label)
        (entityKey e) = hasE st2 (get_node_label e.label) (entityKey e) := by
      rw [hasE_congr _ st3 hoth4.1, hasE_congr st3 st2 hen3]
    rw [hHD, hHE] at hcond
    by_cases h0 : es = []
    · rw [h0] at he
      simp at he
    · have hst3' : st3 = linkEntitiesOk es d.url st2 := by
        rw [hst3, if_neg h0]
      rw [hasM_congr _ st3 hoth4.2.2, hst3']
      exact linkFold_establish d.url es st2 e he hcond
  · intro r hr hne
    rw [relRows_congr r _ st3 hoth4.1] at hne
    exact relFold_establish rs d.url st3 r hr hne

/-- A second ingestion against a store that already holds every merged
object changes none of the statistics-bearing shape. -/
theorem ingest_again (d : PyDoc) (es : List BEntity) (rs : List PyRel)
    (st0 : GState)
    (h1 : docCount st0 d.url = 1)
    (h2 : ∀ e ∈ es, hasE st0 (effLabel e.label) (entityKey e) = true)
    (h3 : ∀ e ∈ es, (hasDoc st0 d.url && hasE st0 (get_node_label e.label)
        (entityKey e)) = true →
      hasM st0 (get_node_label e.label) (entityKey e) d.url = true)
    (h4 : ∀ r ∈ rs, relRows r st0 ≠ 0 → relStored r st0 = true) :
    SameShape (ingestDocument d es rs st0) st0 := by
  have hok : (createDocumentNodeOk d st0).2 = true := by
    rw [cdnOk_bit, h1]
    rfl
  rw [ingestDocument_eq, if_pos hok]
  set st1 := mergeDoc d st0 with hst1
  set st2 := ingestEntities es st1 with hst2
  set st3 := (if es = [] then st2 else linkEntitiesOk es d.url st2)
    with hst3
  have hdoc0 : hasDoc st0 d.url = true :=
    docCount_pos_hasDoc st0 d.url (by rw [h1]; exact one_ne_zero)
  have h1oth := mergeDoc_others d st0
  have h1en : st1.enodes = st0.enodes := h1oth.1
  have h1rels : st1.rels = st0.rels := h1oth.2.1
  have h1med : st1.medges = st0.medges := h1oth.2.2
  have h1dlen : st1.docs.length = st0.docs.length := by
    rw [hst1, mergeDoc_docs_length, if_pos hdoc0]
  have h1hd : hasDoc st1 d.url = true := by
    refine docCount_pos_hasDoc st1 d.url ?_
    rw [hst1, mergeDoc_docCount_target, h1]
    simp
  have hpre2 : ∀ e ∈ es, hasE st1 (effLabel e.label) (entityKey e) = true := by
    intro e he
    rw [hasE_congr st1 st0 h1en]
    exact h2 e he
  have hsh2 := ingestEntities_shape es st1 hpre2
  have h2oth := ingestEntities_others es st1
  have hen3 : st3.enodes = st2.enodes := by
    rw [hst3]
    by_cases h0 : es = []
    · rw [if_pos h0]
    · rw [if_neg h0]
      exact (linkOk_others es d.url st2).1
  have hdocs3 : st3.docs = st2.docs := by
    rw [hst3]
    by_cases h0 : es = []
    · rw [if_pos h0]
    · rw [if_neg h0]
      exact (linkOk_others es d.url st2).2.1
  have hrels3 : st3.rels = st2.rels := by
    rw [hst3]
    by_cases h0 : es = []
    · rw [if_pos h0]
    · rw [if_neg h0]
      exact (linkOk_others es d.url st2).2.2
  have h3mlen : st3.medges.length = st2.medges.length := by
    rw [hst3]
    by_cases h0 : es = []
    · rw [if_pos h0]
    · rw [if_neg h0]
      refine (linkFold_shape d.url es st2 ?_).1
      intro e he hc
      rw [Bool.and_eq_true] at hc
      have hce : hasE st0 (get_node_label e.label) (entityKey e) = true := by
        rw [← hasE_congr st1 st0 h1en, ← hsh2.2.2]
        exact hc.2
      have hm0 := h3 e he (by rw [Bool.and_eq_true]; exact ⟨hdoc0, hce⟩)
      rw [hasM_congr st2 st1 h2oth.2.2, hasM_congr st1 st0 h1med]
      exact hm0
  have h4' : ∀ r ∈ rs, relRows r st3 ≠ 0 → relStored r st3 = true := by
    intro r hr hne
    have hrows : relRows r st3 = relRows r st0 :=
      calc relRows r st3 = relRows r st2 := relRows_congr r st3 st2 hen3
        _ = relRows r st1 := by
          unfold relRows
          rw [hsh2.2.1, hsh2.2.1]
        _ = relRows r st0 := relRows_congr r st1 st0 h1en
    have hstored := h4 r hr (by rw [← hrows]; exact hne)
    rw [relStored_congr r st3 st0
      (by rw [hrels3, h2oth.2.1, h1rels])]
    exact hstored
  have hsh4 := relFold_shape rs d.url st3 h4'
  have hoth4 := relFold_others rs d.url st3
  refine ⟨?_, ?_, ?_, ?_⟩
  · rw [hoth4.1, hen3, hsh2.1, h1en]
  · rw [hoth4.2.1, hdocs3, h2oth.1]
    exact h1dlen
  · rw [hsh4.1, hrels3, h2oth.2.1, h1rels]
  · rw [hoth4.2.2, h3mlen, h2oth.2.2, h1med]

/-- When the document merge reports failure (several stored documents
share the URL), both ingestions stop after the document merge and the
shape is unchanged. -/
theorem ingest_again_failed (d : PyDoc) (es : List BEntity)
    (rs : List PyRel) (st : GState)
    (hok : (createDocumentNodeOk d st).2 = false) :
    SameShape (ingestDocument d es rs (ingestDocument d es rs st))
      (ingestDocument d es rs st) := by
  have hnot : ¬((if docCount st d.url = 0 then 1 else docCount st d.url)
      = 1) :=
    of_decide_eq_false (by rw [← cdnOk_bit]; exact hok)
  have hc0 : docCount st d.url ≠ 0 := by
    intro h0
    exact hnot (by rw [h0]; rfl)
  have hc1 : docCount st d.url ≠ 1 := by
    intro hv
    exact hnot (by rw [if_neg hc0]; exact hv)
  have hst0 : ingestDocument d es rs st = mergeDoc d st := by
    rw [ingestDocument_eq, if_neg (by simp [hok])]
  have hc0' : docCount (mergeDoc d st) d.url = docCount st d.url := by
    rw [mergeDoc_docCount_target, if_neg hc0]
  have hok2 : (createDocumentNodeOk d (mergeDoc d st)).2 = false := by
    rw [cdnOk_bit]
    apply decide_eq_false
    rw [hc0', if_neg hc0]
    exact hc1
  rw [hst0]
  rw [show ingestDocument d es rs (mergeDoc d st) =
      mergeDoc d (mergeDoc d st) from by
    rw [ingestDocument_eq, if_neg (by simp [hok2])]]
  have hdX : hasDoc (mergeDoc d st) d.url = true :=
    docCount_pos_hasDoc _ _ (by rw [hc0']; exact hc0)
  have hoth := mergeDoc_others d (mergeDoc d st)
  exact ⟨by rw [hoth.1], by rw [mergeDoc_docs_length, if_pos hdX],
    by rw [hoth.2.1], by rw [hoth.2.2]⟩

/-- C2 (confirmed): ingesting the same document — document node, every
extracted entity, the entity–document links, and every extracted
relationship — a second time leaves the total node count and the total
relationship count of the graph exactly as they were after the first
ingestion, from any starting store. -/
theorem C2_ingest_idempotent (d : PyDoc) (es : List BEntity)
    (rs : List PyRel) (st : GState) :
    total_nodes (ingestDocument d es rs (ingestDocument d es rs st)) =
      total_nodes (ingestDocument d es rs st) ∧
    total_relationships
        (ingestDocument d es rs (ingestDocument d es rs st)) =
      total_relationships (ingestDocument d es rs st) := by
  by_cases hok : (createDocumentNodeOk d st).2 = true
  · have hf := ingest_facts d es rs st hok
    exact totals_of_SameShape _ _
      (ingest_again d es rs _ hf.1 hf.2.1 hf.2.2.1 hf.2.2.2)
  · exact totals_of_SameShape _ _
      (ingest_again_failed d es rs st (by simpa using hok))

/-! ### C10: failures come back as False, never as exceptions -/

/-- C10 (confirmed): every graph write of `GraphBuilder` is a total
function into a Boolean result — the `try/except` wrappers catch a
raising store call — and a raising call makes the operation return
`False` with no partial exception escape: the three single-query
operations return `False` leaving the store untouched when their query
raises, and the linking loop returns `False` whenever any of its
per-entity queries raises. -/
theorem C10_false_on_failure :
    ∀ (d : PyDoc) (e e1 e2 : BEntity) (rt : String)
      (url : Option (List Char)) (es : List BEntity) (u : List Char)
      (st : GState) (sched : List Bool),
      (sched.headD false = true →
        create_document_node d st sched = (st, false, sched.tail) ∧
        create_or_update_node e st sched = (st, false, sched.tail) ∧
        create_relationship e1 e2 rt url st sched =
          (st, false, sched.tail)) ∧
      ((sched.take es.length).any id = true →
        (link_entities_to_document es u st sched).2.1 = false) := by
  intro d e e1 e2 rt url es u st sched
  constructor
  · intro h
    refine ⟨?_, ?_, ?_⟩
    · simp only [create_document_node, runStep]
      rw [if_pos h]
    · simp only [create_or_update_node, runStep]
      rw [if_pos h]
    · simp only [create_relationship, runStep]
      rw [if_pos h]
  · induction es generalizing st sched with
    | nil =>
      intro h
      simp at h
    | cons e' rest ih =>
      intro h
      cases sched with
      | nil => simp at h
      | cons s ss =>
        by_cases hs : s = true
        · simp only [link_entities_to_document, runStep, List.headD_cons,
            List.tail_cons]
          rw [if_pos hs]
        · have hs' : s = false := by simpa using hs
          simp only [List.length_cons] at h
          rw [List.take_succ_cons, List.any_cons, hs'] at h
          simp only [id, Bool.false_or] at h
          simp only [link_entities_to_document, runStep, List.headD_cons,
            List.tail_cons]
          rw [if_neg (by simp [hs'])]
          exact ih (linkOne e' u st) ss h

/-- C10 witness: with a schedule whose first store call raises, the
document write returns `False` with the store untouched, and the
linking loop returns `False`. -/
theorem C10_witness :
    create_document_node docA emptyG [true] = (emptyG, false, []) ∧
    (link_entities_to_document [bursaPerson] "u".toList emptyG
      [true]).2.1 = false :=
  ⟨((C10_false_on_failure docA bursaPerson bursaPerson bursaPerson
      "MENTIONED_WITH" none [] "u".toList emptyG [true]).1 rfl).1,
   (C10_false_on_failure docA bursaPerson bursaPerson bursaPerson
      "MENTIONED_WITH" none [bursaPerson] "u".toList emptyG [true]).2
     (by decide)⟩

end BursaKG
